import Mathlib

/-!
Shallow embedding of the marble-marketplace-contract (NEAR smart contract,
Rust) and proofs about its natural-language specification.

Conventions of the embedding:
* u128 / u64 values are Nat; all Rust arithmetic that can panic
  (unwrap of a missing Option, checked_sub failure, division by zero,
  underflowing subtraction) is modelled by Option-valued functions
  where none stands for a panicked (rolled back) transaction.
* NEAR collections are modelled by association lists with the semantics
  of the SDK types: UnorderedMap.insert replaces in place or appends,
  UnorderedMap.remove swap-removes (the last entry takes the removed
  slot), UnorderedSet.insert appends when absent, LookupMap has no
  iteration order so its removal erases the entry.
* Outbound transfers (native or fungible-token) are recorded in an
  effect list; the asynchronous callbacks take the promise outcome as an
  explicit argument.
-/

namespace Marble

abbrev AccountId := String
abbrev TokenId := String

def NEAR : AccountId := "near"

def DELIMETER : String := "||"

def MAX_PRICE : Nat := 1000000000 * 10 ^ 24

def STORAGE_ADD_MARKET_DATA : Nat := 8590000000000000000000

def FIVE_MINUTES : Nat := 300000000000

def to_sec (timestamp : Nat) : Nat := timestamp / 10 ^ 9

/-- Composite two-part key nft_contract_id || token_id. -/
def contractTokenKey (nft_contract_id : AccountId) (token_id : TokenId) : String :=
  nft_contract_id ++ DELIMETER ++ token_id

/-- Composite three-part key as built by make_triple in the source. -/
def make_triple (nft_contract_id : AccountId) (buyer_id : AccountId) (token : String) : String :=
  nft_contract_id ++ DELIMETER ++ buyer_id ++ DELIMETER ++ token

/-- Owner-index key for a trade entry, make_key_owner_by_id_trade in the source. -/
def make_key_owner_by_id_trade (contract_account_id_token_id : String) : String :=
  contract_account_id_token_id ++ DELIMETER ++ "trade"

/-! Association lists with NEAR UnorderedMap semantics. -/

def alGet {V : Type} : List (String × V) → String → Option V
  | [], _ => none
  | (k, v) :: rest, key => if k = key then some v else alGet rest key

/-- UnorderedMap.insert: replace in place when the key exists, else append. -/
def alInsert {V : Type} : List (String × V) → String → V → List (String × V)
  | [], key, v => [(key, v)]
  | (k, w) :: rest, key, v =>
      if k = key then (key, v) :: rest else (k, w) :: alInsert rest key v

/-- UnorderedMap.remove: swap-remove, the last entry takes the removed slot. -/
def alRemove {V : Type} (m : List (String × V)) (key : String) : List (String × V) :=
  match m.findIdx? (fun p => p.1 = key) with
  | none => m
  | some i =>
      match m.getLast? with
      | none => m
      | some last => (m.set i last).dropLast

/-- LookupMap.remove: a storage map holds at most one entry per key and
has no iteration order; removal drops the entry for the key. -/
def alErase {V : Type} : List (String × V) → String → List (String × V)
  | [], _ => []
  | (k, v) :: rest, key =>
      if k = key then alErase rest key else (k, v) :: alErase rest key

/-- UnorderedSet.insert: append when absent. -/
def usInsert (s : List String) (key : String) : List String :=
  if key ∈ s then s else s ++ [key]

/-- UnorderedSet.remove: swap-remove, the last element takes the removed slot. -/
def usRemove (s : List String) (key : String) : List String :=
  match s.findIdx? (fun k => k = key) with
  | none => s
  | some i =>
      match s.getLast? with
      | none => s
      | some last => (s.set i last).dropLast

/-! Data model structures, translated from src/marble-marketplace-contract/src/lib.rs. -/

structure Bid where
  bidder_id : AccountId
  price : Nat
  deriving Repr, DecidableEq

structure MarketData where
  owner_id : AccountId
  approval_id : Nat
  nft_contract_id : AccountId
  token_id : TokenId
  ft_token_id : AccountId
  price : Nat
  bids : Option (List Bid)
  started_at : Option Nat
  ended_at : Option Nat
  end_price : Option Nat
  accept_nft_contract_id : Option String
  accept_token_id : Option String
  is_auction : Option Bool
  reserve_price : Option Nat
  deriving Repr, DecidableEq

structure MarketDataV1 where
  owner_id : AccountId
  approval_id : Nat
  nft_contract_id : AccountId
  token_id : TokenId
  ft_token_id : AccountId
  price : Nat
  deriving Repr, DecidableEq

/-- Read-through conversion of a legacy listing used by buy, internal_buy,
delete_market_data, internal_delete_market_data and get_market_data. -/
def MarketDataV1.toMarketData (m : MarketDataV1) : MarketData :=
  { owner_id := m.owner_id
    approval_id := m.approval_id
    nft_contract_id := m.nft_contract_id
    token_id := m.token_id
    ft_token_id := m.ft_token_id
    price := m.price
    bids := none
    started_at := none
    ended_at := none
    end_price := none
    accept_nft_contract_id := none
    accept_token_id := none
    is_auction := none
    reserve_price := none }

structure TransactionFee where
  next_fee : Option Nat
  start_time : Option Nat
  current_fee : Nat
  deriving Repr, DecidableEq

structure OfferData where
  buyer_id : AccountId
  nft_contract_id : AccountId
  token_id : Option TokenId
  token_series_id : Option TokenId
  ft_token_id : AccountId
  price : Nat
  deriving Repr, DecidableEq

structure TradeData where
  buyer_amount : Option Nat
  seller_amount : Option Nat
  ft_token_id : Option String
  is_active : Option Bool
  nft_contract_id : AccountId
  token_id : Option TokenId
  token_series_id : Option TokenId
  deriving Repr, DecidableEq

structure TradeList where
  approval_id : Nat
  trade_data : List (String × TradeData)
  deriving Repr, DecidableEq

/-- An outbound value transfer emitted during a transaction: a native
transfer Promise or an ft_transfer cross-contract call. -/
inductive Transfer where
  | native (receiver : AccountId) (amount : Nat)
  | ft (token : AccountId) (receiver : AccountId) (amount : Nat)
  deriving Repr, DecidableEq

/-- Full contract state (struct Contract in the source). -/
structure State where
  owner_id : AccountId
  treasury_id : AccountId
  old_market : List (String × MarketDataV1)
  market : List (String × MarketData)
  approved_ft_token_ids : List AccountId
  approved_nft_contract_ids : List AccountId
  storage_deposits : List (String × Nat)
  by_owner_id : List (String × List String)
  offers : List (String × OfferData)
  marble_nft_contracts : List AccountId
  transaction_fee : TransactionFee
  trades : List (String × TradeList)
  market_data_transaction_fee : List (String × Nat)
  deriving Repr, DecidableEq

/-! Payout parsing and validation in resolve_purchase / resolve_offer. -/

/-- Outcome of serde-parsing the bytes returned by nft_transfer_payout:
a bare map parses as PayoutHashMap, a wrapped object parses as Payout,
anything else parses as neither. -/
inductive PromiseValue where
  | bareMap (m : List (AccountId × Nat))
  | wrapped (m : List (AccountId × Nat))
  | malformed
  deriving Repr, DecidableEq

/-- The remainder.checked_sub chain over the payout values: subtract every
amount in turn from the price, none on the first underflow. -/
def checkedSubAll (price : Nat) : List Nat → Option Nat
  | [] => some price
  | v :: rest => if v ≤ price then checkedSubAll (price - v) rest else none

/-- Validation applied to a parsed payout map in resolve_purchase:
keep it only when the checked subtraction chain survives and the final
remainder is at most 100. -/
def acceptPayout (price : Nat) (m : List (AccountId × Nat)) :
    Option (List (AccountId × Nat)) :=
  match checkedSubAll price (m.map Prod.snd) with
  | some remainder => if remainder ≤ 100 then some m else none
  | none => none

/-- payout_option in resolve_purchase: a failed promise gives none; a
successful promise value is parsed as a bare map or a wrapped map and
then validated; a value parsing as neither gives none. -/
def payoutOption (price : Nat) : Option PromiseValue → Option (List (AccountId × Nat))
  | none => none
  | some (PromiseValue.bareMap m) => acceptPayout price m
  | some (PromiseValue.wrapped m) => acceptPayout price m
  | some PromiseValue.malformed => none

/-- Route a payment: native transfer Promise for the sentinel token,
ft_transfer (chained with callback_post_withdraw_deposit) otherwise. -/
def mkTransfer (ft_token_id : AccountId) (receiver : AccountId) (amount : Nat) : Transfer :=
  if ft_token_id = NEAR then Transfer.native receiver amount
  else Transfer.ft ft_token_id receiver amount

/-! Fee schedule, 4.3 of the source (set_transaction_fee,
calculate_current_transaction_fee, calculate_market_data_transaction_fee). -/

/-- calculate_current_transaction_fee: lazily applies a pending fee change
once the block clock (in seconds) passes its start time, then returns the
current fee. Mutates the schedule, hence returns the new schedule too.
none models the unwrap panic of a pending fee without a start time. -/
def calculate_current_transaction_fee (now : Nat) (tf : TransactionFee) :
    Option (Nat × TransactionFee) :=
  match tf.next_fee with
  | some nf =>
      match tf.start_time with
      | some st =>
          if to_sec now ≥ st then
            some (nf, { next_fee := none, start_time := none, current_fee := nf })
          else
            some (tf.current_fee, tf)
      | none => none
  | none => some (tf.current_fee, tf)

/-- set_transaction_fee: owner only, 1 yocto attached, fee below 10000;
immediate application without a start time, pending otherwise. -/
def set_transaction_fee (caller : AccountId) (deposit : Nat) (now : Nat)
    (next_fee : Nat) (start_time : Option Nat) (s : State) : Option State :=
  if deposit = 1 ∧ caller = s.owner_id ∧ next_fee < 10000 then
    match start_time with
    | none =>
        some { s with transaction_fee :=
          { next_fee := none, start_time := none, current_fee := next_fee } }
    | some st =>
        if st > to_sec now then
          some { s with transaction_fee :=
            { s.transaction_fee with next_fee := some next_fee, start_time := some st } }
        else none
  else none

/-- calculate_market_data_transaction_fee: per-listing snapshot when
present, otherwise fall back to the (lazily updated) current fee. -/
def calculate_market_data_transaction_fee (now : Nat) (s : State)
    (nft_contract_id : AccountId) (token_id : TokenId) : Option (Nat × State) :=
  match alGet s.market_data_transaction_fee (contractTokenKey nft_contract_id token_id) with
  | some fee => some (fee, s)
  | none =>
      match calculate_current_transaction_fee now s.transaction_fee with
      | some (fee, tf) => some (fee, { s with transaction_fee := tf })
      | none => none

/-! Settlement callback resolve_purchase. -/

structure ResolveOutcome where
  state : State
  transfers : List Transfer
  treasury_fee : Nat
  ret : Nat
  deriving Repr, DecidableEq

/-- The payout fan-out loop of resolve_purchase: each receiver is paid its
amount; the seller entry is reduced by the treasury fee, which is paid to
the treasury. none models the underflow panic of amount - treasury_fee. -/
def payoutTransfers (ft_token_id : AccountId) (owner_id : AccountId)
    (treasury_id : AccountId) (treasury_fee : Nat) :
    List (AccountId × Nat) → Option (List Transfer)
  | [] => some []
  | (receiver_id, amount) :: rest =>
      if receiver_id = owner_id then
        if treasury_fee ≤ amount then
          match payoutTransfers ft_token_id owner_id treasury_id treasury_fee rest with
          | some ts =>
              some ((mkTransfer ft_token_id receiver_id (amount - treasury_fee) ::
                (if treasury_fee ≠ 0 then [mkTransfer ft_token_id treasury_id treasury_fee]
                 else [])) ++ ts)
          | none => none
        else none
      else
        match payoutTransfers ft_token_id owner_id treasury_id treasury_fee rest with
        | some ts => some (mkTransfer ft_token_id receiver_id amount :: ts)
        | none => none

/-- resolve_purchase: settle a purchase from the result of the
nft_transfer_payout promise. promise_result = none means the promise
failed (is_promise_success() is false); some v carries the value that
promise_result_as_success() returned. -/
def resolve_purchase (buyer_id : AccountId) (market_data : MarketData) (price : Nat)
    (promise_result : Option PromiseValue) (now : Nat) (s : State) :
    Option ResolveOutcome :=
  let key := contractTokenKey market_data.nft_contract_id market_data.token_id
  match payoutOption price promise_result with
  | none =>
      match promise_result with
      | none =>
          -- promise failed: refund the buyer the full price in the
          -- listing's payment token, no fee, state untouched
          some { state := s,
                 transfers := [mkTransfer market_data.ft_token_id buyer_id price],
                 treasury_fee := 0,
                 ret := price }
      | some _ =>
          -- promise succeeded but the payout was rejected: charge the
          -- snapshot fee, remove the snapshot, pay the seller the price
          -- minus the fee and the treasury the fee
          match calculate_market_data_transaction_fee now s
              market_data.nft_contract_id market_data.token_id with
          | none => none
          | some (fee, s1) =>
              let treasury_fee := price * fee / 10000
              let snapshot2 := alRemove s1.market_data_transaction_fee key
              let s2 := { s1 with market_data_transaction_fee := snapshot2 }
              if treasury_fee ≤ price then
                some { state := s2,
                       transfers :=
                         mkTransfer market_data.ft_token_id market_data.owner_id
                           (price - treasury_fee) ::
                         (if treasury_fee > 0 then
                            [mkTransfer market_data.ft_token_id s2.treasury_id treasury_fee]
                          else []),
                       treasury_fee := treasury_fee,
                       ret := price }
              else none
  | some payout =>
      match calculate_market_data_transaction_fee now s
          market_data.nft_contract_id market_data.token_id with
      | none => none
      | some (fee, s1) =>
          let treasury_fee := price * fee / 10000
          let snapshot2 := alRemove s1.market_data_transaction_fee key
          let s2 := { s1 with market_data_transaction_fee := snapshot2 }
          match payoutTransfers market_data.ft_token_id market_data.owner_id
              s2.treasury_id treasury_fee payout with
          | none => none
          | some ts =>
              let seller_key := make_triple market_data.nft_contract_id
                market_data.owner_id market_data.token_id
              some { state := { s2 with trades := alRemove s2.trades seller_key },
                     transfers := ts,
                     treasury_fee := treasury_fee,
                     ret := price }

/-! Owner index maintenance, the common by_owner_id get / insert / remove
pattern of the source. -/

def byOwnerInsert (m : List (String × List String)) (account_id : AccountId)
    (key : String) : List (String × List String) :=
  alInsert m account_id (usInsert ((alGet m account_id).getD []) key)

def byOwnerRemove (m : List (String × List String)) (account_id : AccountId)
    (key : String) : List (String × List String) :=
  match alGet m account_id with
  | none => m
  | some set =>
      let set2 := usRemove set key
      if set2.isEmpty then alErase m account_id else alInsert m account_id set2

/-! Listing registry, 4.4 of the source. -/

/-- internal_add_market_data: validation, timing normalization and
insertion of a new listing; also captures the per-listing fee snapshot
and propagates the approval id into an existing trade intent. -/
def internal_add_market_data (owner_id : AccountId) (approval_id : Nat)
    (nft_contract_id : AccountId) (token_id : TokenId) (ft_token_id : AccountId)
    (price : Nat) (started_at0 : Option Nat) (ended_at : Option Nat)
    (end_price : Option Nat) (is_auction : Option Bool) (reserve_price0 : Option Nat)
    (now : Nat) (s : State) : Option State :=
  let contract_and_token_id := contractTokenKey nft_contract_id token_id
  let bids : Option (List Bid) :=
    match is_auction with
    | some u => if u then some [] else none
    | none => none
  -- a given start time lying in the past is clamped to the current time
  let started_at1 : Option Nat :=
    match started_at0 with
    | some t => some (if t ≤ now then now else t)
    | none => none
  -- when a start time was given together with an end time, start < end
  let ok_started : Bool :=
    match started_at1, ended_at with
    | some st, some en => decide (st < en)
    | _, _ => true
  -- auctions default the start time to now and require an end time
  let started_at2 : Option Nat :=
    if is_auction = some true ∧ started_at1 = none then some now else started_at1
  let ok_auction : Bool := is_auction = some true → ended_at.isSome
  let ok_ended : Bool :=
    match ended_at with
    | some en => decide (en ≥ now)
    | none => true
  let ok_end_price : Bool :=
    match end_price with
    | some ep => decide (ep < price)
    | none => true
  let reserve_price : Option Nat :=
    match reserve_price0 with
    | some r => some r
    | none => some price
  let ok_reserve : Bool :=
    match reserve_price0 with
    | some r => decide (r ≥ price)
    | none => true
  if ok_started ∧ ok_auction ∧ ok_ended ∧ ok_end_price ∧ ok_reserve ∧ price < MAX_PRICE then
    -- capture the per-listing transaction-fee snapshot; the schedule is
    -- untouched by the market, owner-index and trades writes below, so
    -- the lazily updated fee is computed from the incoming schedule
    match calculate_current_transaction_fee now s.transaction_fee with
    | some pr =>
        let md : MarketData :=
          { owner_id := owner_id,
            approval_id := approval_id,
            nft_contract_id := nft_contract_id,
            token_id := token_id,
            ft_token_id := ft_token_id,
            price := price,
            bids := bids,
            started_at := started_at2,
            ended_at := ended_at,
            end_price := end_price,
            accept_nft_contract_id := none,
            accept_token_id := none,
            is_auction := is_auction,
            reserve_price := reserve_price }
        let s1 := { s with market := alInsert s.market contract_and_token_id md }
        let s2 := { s1 with by_owner_id := byOwnerInsert s1.by_owner_id owner_id contract_and_token_id }
        -- propagate the fresh approval id into an existing trade intent
        let owner_triple := make_triple nft_contract_id owner_id token_id
        let s3 :=
          match alGet s2.trades owner_triple with
          | some tl =>
              { s2 with trades := alInsert s2.trades owner_triple { tl with approval_id := approval_id } }
          | none => s2
        let snapshot := alInsert s3.market_data_transaction_fee contract_and_token_id pr.1
        some { s3 with transaction_fee := pr.2, market_data_transaction_fee := snapshot }
    | none => none
  else none

/-- update_market_data: the seller adjusts price and reserve price of an
existing listing under the same price-cap and reserve checks. -/
def update_market_data (caller : AccountId) (deposit : Nat)
    (nft_contract_id : AccountId) (token_id : TokenId) (ft_token_id : AccountId)
    (price : Nat) (reserve_price0 : Option Nat) (s : State) : Option State :=
  if deposit = 1 then
    let contract_and_token_id := contractTokenKey nft_contract_id token_id
    match alGet s.market contract_and_token_id with
    | none => none
    | some md =>
        if md.owner_id = caller ∧ ft_token_id = md.ft_token_id ∧ price < MAX_PRICE then
          let reserve_price : Option Nat :=
            match reserve_price0 with
            | some r => some r
            | none => some price
          let ok_reserve : Bool :=
            match reserve_price0 with
            | some r => decide (r ≥ price)
            | none => true
          if ok_reserve then
            let md2 := { md with price := price, reserve_price := reserve_price }
            some { s with market := alInsert s.market contract_and_token_id md2 }
          else none
        else none
  else none

/-- Listing lookup with legacy read-through: the old map is consulted
first and converted, then the current map. -/
def marketLookup (s : State) (key : String) : Option MarketData :=
  match alGet s.old_market key with
  | some v1 => some v1.toMarketData
  | none => alGet s.market key

/-- internal_delete_market_data: remove a listing from whichever map holds
it, refund all held bids, and clean the owner index. Returns the removed
listing when one existed. -/
def internal_delete_market_data (s : State) (nft_contract_id : AccountId)
    (token_id : TokenId) : State × List Transfer × Option MarketData :=
  let key := contractTokenKey nft_contract_id token_id
  match alGet s.old_market key with
  | some v1 =>
      let md := v1.toMarketData
      let s1 := { s with old_market := alRemove s.old_market key }
      let s2 := { s1 with by_owner_id := byOwnerRemove s1.by_owner_id md.owner_id key }
      (s2, [], some md)
  | none =>
      match alGet s.market key with
      | some md =>
          let s1 := { s with market := alRemove s.market key }
          let refunds := (md.bids.getD []).map
            (fun b => mkTransfer md.ft_token_id b.bidder_id b.price)
          let s2 := { s1 with by_owner_id := byOwnerRemove s1.by_owner_id md.owner_id key }
          (s2, refunds, some md)
      | none => (s, [], none)

/-- delete_market_data: seller or contract owner removes a listing. -/
def delete_market_data (caller : AccountId) (deposit : Nat)
    (nft_contract_id : AccountId) (token_id : TokenId) (s : State) :
    Option (State × List Transfer) :=
  if deposit = 1 then
    match marketLookup s (contractTokenKey nft_contract_id token_id) with
    | none => none
    | some md =>
        if caller = md.owner_id ∨ caller = s.owner_id then
          let (s1, ts, _) := internal_delete_market_data s nft_contract_id token_id
          some (s1, ts)
        else none
  else none

/-! Buying, 4.4 / 4.5 of the source. -/

/-- The price determination of buy and internal_buy: a Dutch listing
(is_auction set and end_price present) is priced on the linear decay
curve, buying before the start time or on an English auction panics, any
other listing is priced at its stored price. -/
def buyPriceOfMarketData (md : MarketData) (now : Nat) : Option Nat :=
  if md.is_auction.isSome ∧ md.end_price.isSome then
    match md.end_price, md.ended_at, md.started_at with
    | some end_price, some ended_at, some started_at =>
        if now ≥ started_at then
          if now > ended_at then some end_price
          else
            let duration := ended_at - started_at
            if duration = 0 then none
            else some (md.price - (md.price - end_price) / duration * (now - started_at))
        else none
    | _, _, _ => none
  else
    match md.is_auction with
    | some auction => if auction = false then some md.price else none
    | none => some md.price

/-- The price reported by the view get_market_data: same curve, but a
query before the start time reports the stored start price instead of
panicking. -/
def get_market_data_price (md : MarketData) (now : Nat) : Option Nat :=
  if md.is_auction.isSome ∧ md.end_price.isSome then
    match md.end_price, md.started_at, md.ended_at with
    | some end_price, some started_at, some ended_at =>
        if now < started_at then some md.price
        else if now > ended_at then some end_price
        else
          let duration := ended_at - started_at
          if duration = 0 then none
          else some (md.price - (md.price - end_price) / duration * (now - started_at))
    | _, _, _ => none
  else some md.price

/-- internal_process_purchase: remove the listing (panicking when absent)
and start the nft_transfer_payout / resolve_purchase promise chain. The
removed listing and the bid refunds are returned for the settlement. -/
def internal_process_purchase (nft_contract_id : AccountId) (token_id : TokenId)
    (s : State) : Option (State × List Transfer × MarketData) :=
  let (s1, ts, mdOpt) := internal_delete_market_data s nft_contract_id token_id
  match mdOpt with
  | some md => some (s1, ts, md)
  | none => none

/-- buy: native purchase of a listing at its (possibly time-curved)
price. Returns the post-transaction state, the emitted bid refunds, the
charged price and the listing handed to the settlement callback. -/
def buy (caller : AccountId) (deposit : Nat) (now : Nat)
    (nft_contract_id : AccountId) (token_id : TokenId)
    (ft_token_id : Option AccountId) (price_arg : Option Nat) (s : State) :
    Option (State × List Transfer × Nat × MarketData) :=
  match marketLookup s (contractTokenKey nft_contract_id token_id) with
  | none => none
  | some md =>
      if caller ≠ md.owner_id ∧ md.ft_token_id = NEAR then
        let ok_ft : Bool :=
          match ft_token_id with
          | some f => decide (f = md.ft_token_id)
          | none => true
        let ok_price : Bool :=
          match price_arg with
          | some p => decide (p = md.price)
          | none => true
        if ok_ft ∧ ok_price then
          match buyPriceOfMarketData md now with
          | none => none
          | some price =>
              if deposit ≥ price then
                match internal_process_purchase nft_contract_id token_id s with
                | some (s1, ts, md2) => some (s1, ts, price, md2)
                | none => none
              else none
        else none
      else none

/-- internal_buy: the fungible-token purchase route reached from
ft_on_transfer; the transferred amount must equal the stored price and
the transfer token must match the listing token. -/
def internal_buy (nft_contract_id : AccountId) (token_id : TokenId)
    (ft_token_id : AccountId) (sender : AccountId) (amount : Nat) (now : Nat)
    (s : State) : Option (State × List Transfer × Nat × MarketData) :=
  match marketLookup s (contractTokenKey nft_contract_id token_id) with
  | none => none
  | some md =>
      if sender ≠ md.owner_id ∧ ft_token_id = md.ft_token_id ∧ amount = md.price then
        match buyPriceOfMarketData md now with
        | none => none
        | some price =>
            match internal_process_purchase nft_contract_id token_id s with
            | some (s1, ts, md2) => some (s1, ts, price, md2)
            | none => none
      else none

/-! Auction bids, 4.5 of the source. -/

/-- internal_cancel_bid: refund every bid of the given account on the
listing and retain the rest. -/
def internal_cancel_bid (nft_contract_id : AccountId) (token_id : TokenId)
    (account_id : AccountId) (s : State) : Option (State × List Transfer) :=
  let key := contractTokenKey nft_contract_id token_id
  match alGet s.market key with
  | none => none
  | some md =>
      match md.bids with
      | none => none
      | some bids =>
          if bids.isEmpty then none
          else
            let refunds := (bids.filter (fun b => b.bidder_id = account_id)).map
              (fun b => mkTransfer md.ft_token_id b.bidder_id b.price)
            let bids2 := bids.filter (fun b => b.bidder_id ≠ account_id)
            let md2 := { md with bids := some bids2 }
            some ({ s with market := alInsert s.market key md2 }, refunds)

/-- Tail of the bid insertion shared by both routes: store the extended
bid list and, when the list has reached 100 entries, cancel (refund) the
oldest bidder's bids. -/
def addBidFinish (nft_contract_id : AccountId) (token_id : TokenId)
    (md : MarketData) (bids3 : List Bid) (refunds : List Transfer) (s : State) :
    Option (State × List Transfer) :=
  let key := contractTokenKey nft_contract_id token_id
  let md2 := { md with bids := some bids3 }
  let s1 := { s with market := alInsert s.market key md2 }
  if bids3.length ≥ 100 then
    match bids3.head? with
    | none => none
    | some first =>
        match internal_cancel_bid nft_contract_id token_id first.bidder_id s1 with
        | some (s2, ts2) => some (s2, refunds ++ ts2)
        | none => none
  else some (s1, refunds)

/-- The shared body of add_bid and internal_ft_token_add_bid, from the
bid-amount checks to the 100-bid cap. refundOf builds the refund of a
displaced earlier bid by the same bidder (native transfer on the native
route, ft_transfer on the FT route). -/
def addBidCore (nft_contract_id : AccountId) (token_id : TokenId)
    (bidder_id : AccountId) (amount : Nat) (md : MarketData)
    (refundOf : Bid → Transfer) (s : State) : Option (State × List Transfer) :=
  let new_bid : Bid := { bidder_id := bidder_id, price := amount }
  let bids := md.bids.getD []
  if ¬ bids.isEmpty then
    match bids.getLast? with
    | none => none
    | some current_bid =>
        if amount ≥ current_bid.price + current_bid.price / 100 * 5 ∧ amount ≥ md.price then
          addBidFinish nft_contract_id token_id md
            (bids.filter (fun b => b.bidder_id ≠ bidder_id) ++ [new_bid])
            ((bids.filter (fun b => b.bidder_id = bidder_id)).map refundOf) s
        else none
  else
    if amount ≥ md.price then
      addBidFinish nft_contract_id token_id md (bids ++ [new_bid]) [] s
    else none

/-- add_bid: the native bidding entry point. The ended_at field is read
unconditionally to compute the anti-sniping extension, so a listing
without an end time panics here. -/
def add_bid (caller : AccountId) (deposit : Nat) (now : Nat)
    (nft_contract_id : AccountId) (ft_token_id : AccountId) (token_id : TokenId)
    (amount : Nat) (s : State) : Option (State × List Transfer) :=
  let key := contractTokenKey nft_contract_id token_id
  match alGet s.market key with
  | none => none
  | some md0 =>
      let ok_started : Bool :=
        match md0.started_at with
        | some st => decide (now ≥ st)
        | none => true
      let ok_ended : Bool :=
        match md0.ended_at with
        | some en => decide (now ≤ en)
        | none => true
      if ok_started ∧ ok_ended then
        match md0.ended_at with
        | none => none
        | some ended_at =>
            let md1 :=
              if ended_at - now ≤ FIVE_MINUTES then
                { md0 with ended_at := some (ended_at + FIVE_MINUTES) }
              else md0
            if md1.owner_id ≠ caller ∧ deposit ≥ amount ∧ ft_token_id = NEAR ∧
                md1.ft_token_id = NEAR ∧ md1.end_price = none then
              addBidCore nft_contract_id token_id caller amount md1
                (fun b => Transfer.native b.bidder_id b.price) s
            else none
      else none

/-- internal_ft_token_add_bid: the fungible-token bidding route reached
from ft_on_transfer with method auction; same shape as add_bid with the
transferred amount standing in for the attached deposit and ft refunds. -/
def internal_ft_token_add_bid (nft_contract_id : AccountId) (ft_token_id : AccountId)
    (token_id : TokenId) (sender_id : AccountId) (amount : Nat) (now : Nat)
    (s : State) : Option (State × List Transfer) :=
  let key := contractTokenKey nft_contract_id token_id
  match alGet s.market key with
  | none => none
  | some md0 =>
      let ok_started : Bool :=
        match md0.started_at with
        | some st => decide (now ≥ st)
        | none => true
      let ok_ended : Bool :=
        match md0.ended_at with
        | some en => decide (now ≤ en)
        | none => true
      if ok_started ∧ ok_ended then
        match md0.ended_at with
        | none => none
        | some ended_at =>
            let md1 :=
              if ended_at - now ≤ FIVE_MINUTES then
                { md0 with ended_at := some (ended_at + FIVE_MINUTES) }
              else md0
            if md1.owner_id ≠ sender_id ∧ ft_token_id = md1.ft_token_id ∧
                md1.end_price = none then
              addBidCore nft_contract_id token_id sender_id amount md1
                (fun b => Transfer.ft ft_token_id b.bidder_id b.price) s
            else none
      else none

/-- cancel_bid: the bidder or the contract owner cancels all bids of an
account on a listing. -/
def cancel_bid (caller : AccountId) (deposit : Nat) (nft_contract_id : AccountId)
    (token_id : TokenId) (account_id : AccountId) (s : State) :
    Option (State × List Transfer) :=
  if deposit = 1 then
    let key := contractTokenKey nft_contract_id token_id
    match alGet s.market key with
    | none => none
    | some md =>
        match md.bids with
        | none => none
        | some bids =>
            if bids.isEmpty then none
            else
              if bids.all (fun b => b.bidder_id ≠ account_id ∨
                  caller = b.bidder_id ∨ caller = s.owner_id) then
                internal_cancel_bid nft_contract_id token_id account_id s
              else none
  else none

/-- accept_bid: seller, contract owner or top bidder settles an English
auction on the top bid; every other bid is refunded, then the purchase
pipeline runs with the top bidder as buyer at the top price. -/
def accept_bid (caller : AccountId) (deposit : Nat) (now : Nat)
    (nft_contract_id : AccountId) (token_id : TokenId) (s : State) :
    Option (State × List Transfer × Nat × MarketData × AccountId) :=
  if deposit = 1 then
    let key := contractTokenKey nft_contract_id token_id
    match alGet s.market key with
    | none => none
    | some md =>
        match md.bids with
        | none => none
        | some bids =>
            if bids.isEmpty then none
            else
              match bids.getLast? with
              | none => none
              | some selected_bid =>
                  let rest := bids.dropLast
                  if caller = md.owner_id ∨ caller = s.owner_id ∨
                      caller = selected_bid.bidder_id then
                    let ok_time : Bool :=
                      if caller ≠ s.owner_id then
                        match md.ended_at with
                        | some en => decide (now ≥ en)
                        | none => true
                      else true
                    let ok_reserve : Option Unit :=
                      if selected_bid.bidder_id = caller then
                        match md.reserve_price with
                        | some r => if selected_bid.price ≥ r then some () else none
                        | none => none
                      else some ()
                    if ok_time then
                      match ok_reserve with
                      | none => none
                      | some _ =>
                          if md.end_price = none then
                            let refunds := rest.map
                              (fun b => mkTransfer md.ft_token_id b.bidder_id b.price)
                            let md2 := { md with bids := some [] }
                            let s1 := { s with market := alInsert s.market key md2 }
                            match internal_process_purchase md.nft_contract_id token_id s1 with
                            | some (s2, ts, md3) =>
                                some (s2, refunds ++ ts, selected_bid.price, md3,
                                  selected_bid.bidder_id)
                            | none => none
                          else none
                    else none
                  else none
  else none

/-! Offer book, 4.6 of the source. -/

/-- internal_delete_offer: remove the offer for the three-part key and
clean the buyer's owner index; absent offers are a silent no-op. -/
def internal_delete_offer (nft_contract_id : AccountId) (buyer_id : AccountId)
    (token_id : TokenId) (s : State) : State × Option OfferData :=
  let key := make_triple nft_contract_id buyer_id token_id
  match alGet s.offers key with
  | none => (s, none)
  | some offer =>
      let s1 := { s with offers := alRemove s.offers key }
      let s2 := { s1 with by_owner_id := byOwnerRemove s1.by_owner_id offer.buyer_id key }
      (s2, some offer)

/-- internal_add_offer: insert the offer record and index it under the
buyer. -/
def internal_add_offer (nft_contract_id : AccountId) (token_id : Option TokenId)
    (token_series_id : Option TokenId) (ft_token_id : AccountId) (price : Nat)
    (buyer_id : AccountId) (s : State) : Option State :=
  let tokenOpt : Option String :=
    match token_id with
    | some t => some t
    | none => token_series_id
  match tokenOpt with
  | none => none
  | some token =>
      let key := make_triple nft_contract_id buyer_id token
      let offer : OfferData :=
        { buyer_id := buyer_id,
          nft_contract_id := nft_contract_id,
          token_id := token_id,
          token_series_id := token_series_id,
          ft_token_id := ft_token_id,
          price := price }
      let s1 := { s with offers := alInsert s.offers key offer }
      some { s1 with by_owner_id := byOwnerInsert s1.by_owner_id buyer_id key }

/-- add_offer: escrow the attached native deposit (equal to the price)
as a standing offer; an earlier offer by the same buyer on the same
target is refunded and replaced; the storage invariant is enforced. -/
def add_offer (caller : AccountId) (deposit : Nat) (nft_contract_id : AccountId)
    (token_id : Option TokenId) (token_series_id : Option TokenId)
    (ft_token_id : AccountId) (price : Nat) (s : State) :
    Option (State × List Transfer) :=
  let tokenOpt : Option String :=
    match token_id with
    | some t => some t
    | none =>
        if nft_contract_id ∈ s.marble_nft_contracts then token_series_id else none
  match tokenOpt with
  | none => none
  | some token =>
      if deposit = price ∧ ft_token_id = NEAR then
        let (s1, oldOffer) := internal_delete_offer nft_contract_id caller token s
        let refunds :=
          match oldOffer with
          | some old => [Transfer.native caller old.price]
          | none => []
        let owner_paid_storage := (alGet s1.storage_deposits caller).getD 0
        let signer_storage_required :=
          (((alGet s1.by_owner_id caller).getD []).length + 1) * STORAGE_ADD_MARKET_DATA
        if owner_paid_storage ≥ signer_storage_required then
          match internal_add_offer nft_contract_id token_id token_series_id
              ft_token_id price caller s1 with
          | some s2 => some (s2, refunds)
          | none => none
        else none
      else none

/-- delete_offer: the buyer cancels an offer and is refunded the escrow. -/
def delete_offer (caller : AccountId) (deposit : Nat) (nft_contract_id : AccountId)
    (token_id : Option TokenId) (token_series_id : Option TokenId) (s : State) :
    Option (State × List Transfer) :=
  if deposit = 1 then
    let tokenOpt : Option String :=
      match token_id with
      | some t => some t
      | none => token_series_id
    match tokenOpt with
    | none => none
    | some token =>
        let key := make_triple nft_contract_id caller token
        match alGet s.offers key with
        | none => none
        | some offer =>
            let ok_field : Bool :=
              match token_id with
              | some _ =>
                  match offer.token_id with
                  | some t => decide (t = token)
                  | none => false
              | none =>
                  match offer.token_series_id with
                  | some t => decide (t = token)
                  | none => false
            if ok_field ∧ offer.buyer_id = caller then
              let (s1, removed) := internal_delete_offer nft_contract_id caller token s
              match removed with
              | some _ => some (s1, [Transfer.native offer.buyer_id offer.price])
              | none => none
            else none
  else none

/-! Storage-deposit ledger, 4.2 of the source. -/

def storage_deposit (caller : AccountId) (account_id : Option AccountId)
    (deposit : Nat) (s : State) : Option State :=
  let storage_account_id := account_id.getD caller
  if deposit ≥ STORAGE_ADD_MARKET_DATA then
    let balance := (alGet s.storage_deposits storage_account_id).getD 0
    let deposits2 := alInsert s.storage_deposits storage_account_id (balance + deposit)
    some { s with storage_deposits := deposits2 }
  else none

/-- storage_withdraw: return all credit minus the storage bond for the
entries the caller still owns. The subtraction amount - diff is not a
checked_sub in the source; its underflow is modelled as a panic. -/
def storage_withdraw (caller : AccountId) (deposit : Nat) (s : State) :
    Option (State × List Transfer) :=
  if deposit = 1 then
    let amount := (alGet s.storage_deposits caller).getD 0
    let s1 := { s with storage_deposits := alErase s.storage_deposits caller }
    let len := ((alGet s1.by_owner_id caller).getD []).length
    let diff := len * STORAGE_ADD_MARKET_DATA
    if diff ≤ amount then
      let amount2 := amount - diff
      let ts := if amount2 > 0 then [Transfer.native caller amount2] else []
      let s2 :=
        if diff > 0 then
          { s1 with storage_deposits := alInsert s1.storage_deposits caller diff }
        else s1
      some (s2, ts)
    else none
  else none

/-! Barter book, 4.7 of the source. -/

def COLON : String := ":"

/-- The series id of a token: the part before the first colon
(token_id.split on the colon, first element). -/
def tokenSeriesOf (token_id : TokenId) : TokenId :=
  (token_id.splitOn COLON).headD token_id

/-- internal_add_trade: record a trade intent of buyer_token for the
seller token or series, indexed under the buyer. -/
def internal_add_trade (nft_contract_id : AccountId) (token_id : Option TokenId)
    (token_series_id : Option TokenId) (buyer_nft_contract_id : AccountId)
    (buyer_token_id : Option TokenId) (buyer_id : AccountId)
    (buyer_approval_id : Nat) (s : State) : Option State :=
  let tokenOpt : Option String :=
    match token_id with
    | some t => some t
    | none =>
        if nft_contract_id ∈ s.marble_nft_contracts then token_series_id else none
  match tokenOpt, buyer_token_id with
  | some token, some btoken =>
      let key := make_triple nft_contract_id buyer_id token
      let buyer_key := make_triple buyer_nft_contract_id buyer_id btoken
      let trade_data : TradeData :=
        { buyer_amount := none,
          seller_amount := none,
          ft_token_id := none,
          is_active := none,
          nft_contract_id := nft_contract_id,
          token_id := token_id,
          token_series_id := token_series_id }
      let tl := (alGet s.trades buyer_key).getD { approval_id := 0, trade_data := [] }
      let tl2 : TradeList :=
        { approval_id := buyer_approval_id,
          trade_data := alInsert tl.trade_data key trade_data }
      let s1 := { s with trades := alInsert s.trades buyer_key tl2 }
      let owners2 := byOwnerInsert s1.by_owner_id buyer_id (make_key_owner_by_id_trade key)
      some { s1 with by_owner_id := owners2 }
  | _, _ => none

/-- internal_delete_trade: remove one trade intent from the buyer's trade
list and clean the owner index; when the inner entry was absent the whole
(just re-inserted) list is removed and none is returned. -/
def internal_delete_trade (nft_contract_id : AccountId) (buyer_id : AccountId)
    (token_id : TokenId) (buyer_nft_contract_id : AccountId)
    (buyer_token_id : TokenId) (s : State) : Option (State × Option TradeData) :=
  let buyer_key := make_triple buyer_nft_contract_id buyer_id buyer_token_id
  let key := make_triple nft_contract_id buyer_id token_id
  match alGet s.trades buyer_key with
  | none => none
  | some tl =>
      let removed := alGet tl.trade_data key
      let tl2 := { tl with trade_data := alErase tl.trade_data key }
      let s1 := { s with trades := alInsert s.trades buyer_key tl2 }
      match removed with
      | some trade =>
          match alGet s1.by_owner_id buyer_id with
          | none => none
          | some bo =>
              let bo2 := usRemove bo (make_key_owner_by_id_trade key)
              let s2 :=
                if bo2.isEmpty then
                  { s1 with by_owner_id := alErase s1.by_owner_id buyer_id }
                else { s1 with by_owner_id := alInsert s1.by_owner_id buyer_id bo2 }
              some (s2, some trade)
      | none =>
          some ({ s1 with trades := alRemove s1.trades buyer_key }, none)

/-- delete_trade: the buyer removes one of their trade intents. -/
def delete_trade (caller : AccountId) (deposit : Nat) (nft_contract_id : AccountId)
    (token_id : Option TokenId) (token_series_id : Option TokenId)
    (buyer_nft_contract_id : AccountId) (buyer_token_id : TokenId) (s : State) :
    Option State :=
  if deposit = 1 then
    let tokenOpt : Option String :=
      match token_id with
      | some t => some t
      | none => token_series_id
    match tokenOpt with
    | none => none
    | some token =>
        let buyer_key := make_triple buyer_nft_contract_id caller buyer_token_id
        let key := make_triple nft_contract_id caller token
        match alGet s.trades buyer_key with
        | none => none
        | some tl =>
            match alGet tl.trade_data key with
            | none => none
            | some td =>
                let ok_field : Bool :=
                  match token_id with
                  | some _ =>
                      match td.token_id with
                      | some t => decide (t = token)
                      | none => false
                  | none =>
                      match td.token_series_id with
                      | some t => decide (t = token)
                      | none => false
                if ok_field then
                  match internal_delete_trade nft_contract_id caller token
                      buyer_nft_contract_id buyer_token_id s with
                  | some (s1, some _) => some s1
                  | some (_, none) => none
                  | none => none
                else none
  else none

/-- internal_accept_offer: delete any listing for the token, confirm and
delete the stored offer, and hand the offer to the settlement promise. -/
def internal_accept_offer (nft_contract_id : AccountId) (buyer_id : AccountId)
    (token_id : TokenId) (price : Nat) (s : State) :
    Option (State × List Transfer × OfferData) :=
  let key := make_triple nft_contract_id buyer_id token_id
  let (s1, ts, _) := internal_delete_market_data s nft_contract_id token_id
  match alGet s1.offers key with
  | none => none
  | some offer0 =>
      let ok_field : Bool :=
        match offer0.token_id with
        | some t => decide (t = token_id)
        | none => false
      if ok_field ∧ offer0.price = price then
        let (s2, removed) := internal_delete_offer nft_contract_id buyer_id token_id s1
        match removed with
        | some offer => some (s2, ts, offer)
        | none => none
      else none

/-- internal_accept_offer_series: like internal_accept_offer but keyed by
the token's series id (the part before the first colon). -/
def internal_accept_offer_series (nft_contract_id : AccountId) (buyer_id : AccountId)
    (token_id : TokenId) (price : Nat) (s : State) :
    Option (State × List Transfer × OfferData) :=
  let token_series_id := tokenSeriesOf token_id
  let key := make_triple nft_contract_id buyer_id token_series_id
  let (s1, ts, _) := internal_delete_market_data s nft_contract_id token_id
  match alGet s1.offers key with
  | none => none
  | some offer0 =>
      let ok_field : Bool :=
        match offer0.token_series_id with
        | some t => decide (t = token_series_id)
        | none => false
      if ok_field ∧ offer0.price = price then
        let (s2, removed) := internal_delete_offer nft_contract_id buyer_id
          token_series_id s1
        match removed with
        | some _ => some (s2, ts, offer0)
        | none => none
      else none

/-- internal_accept_trade: verify the trade intent, delete both listings,
clear both trade lists, and start the two-phase swap promise chain.
(The trade_data.clear() calls on fetched copies have no storage effect;
the subsequent removes delete the lists.) -/
def internal_accept_trade (nft_contract_id : AccountId) (buyer_id : AccountId)
    (token_id : TokenId) (seller_id : AccountId)
    (buyer_nft_contract_id : AccountId) (buyer_token_id : TokenId) (s : State) :
    Option (State × List Transfer) :=
  let buyer_key := make_triple buyer_nft_contract_id buyer_id buyer_token_id
  let key := make_triple nft_contract_id buyer_id token_id
  match alGet s.trades buyer_key with
  | none => none
  | some tl =>
      match alGet tl.trade_data key with
      | none => none
      | some _ =>
          let (s1, ts1, _) := internal_delete_market_data s nft_contract_id token_id
          let (s2, ts2, _) := internal_delete_market_data s1 buyer_nft_contract_id
            buyer_token_id
          let seller_key := make_triple nft_contract_id seller_id token_id
          let trades2 := alRemove (alRemove s2.trades seller_key) buyer_key
          some ({ s2 with trades := trades2 }, ts1 ++ ts2)

/-- internal_accept_trade_series: series-keyed variant of
internal_accept_trade. -/
def internal_accept_trade_series (nft_contract_id : AccountId) (buyer_id : AccountId)
    (token_id : TokenId) (seller_id : AccountId)
    (buyer_nft_contract_id : AccountId) (buyer_token_id : TokenId) (s : State) :
    Option (State × List Transfer) :=
  let token_series_id := tokenSeriesOf token_id
  let buyer_key := make_triple buyer_nft_contract_id buyer_id buyer_token_id
  let key := make_triple nft_contract_id buyer_id token_series_id
  match alGet s.trades buyer_key with
  | none => none
  | some tl =>
      match alGet tl.trade_data key with
      | none => none
      | some td =>
          let ok_field : Bool :=
            match td.token_series_id with
            | some t => decide (t = token_series_id)
            | none => false
          if ok_field then
            let (s1, ts1, _) := internal_delete_market_data s nft_contract_id token_id
            let (s2, ts2, _) := internal_delete_market_data s1 buyer_nft_contract_id
              buyer_token_id
            let seller_key := make_triple nft_contract_id seller_id token_id
            let trades2 := alRemove (alRemove s2.trades seller_key) buyer_key
            some ({ s2 with trades := trades2 }, ts1 ++ ts2)
          else none

/-! Entry surface: the NFT approval callback and the FT receiver. -/

def MT_SALE : String := "sale"

def MT_ACCEPT_OFFER : String := "accept_offer"

def MT_ACCEPT_OFFER_SERIES : String := "accept_offer_marble_series"

def MT_ADD_TRADE : String := "add_trade"

def MT_ACCEPT_TRADE : String := "accept_trade"

def MT_ACCEPT_TRADE_SERIES : String := "accept_trade_marble_series"

/-- The decoded msg of nft_on_approve (struct MarketArgs). -/
structure MarketArgs where
  market_type : String
  price : Option Nat
  ft_token_id : Option AccountId
  buyer_id : Option AccountId
  end_price : Option Nat
  started_at : Option Nat
  ended_at : Option Nat
  is_auction : Option Bool
  seller_nft_contract_id : Option AccountId
  seller_token_id : Option TokenId
  seller_token_series_id : Option TokenId
  buyer_nft_contract_id : Option AccountId
  buyer_token_id : Option TokenId
  reserve_price : Option Nat
  deriving Repr, DecidableEq

/-- The replace-old-data-approval-id block of nft_on_approve: refresh the
approval id of an existing trade list under the given key. -/
def touchTradeApproval (s : State) (buyer_key : String) (approval_id : Nat) : State :=
  match alGet s.trades buyer_key with
  | some tl =>
      { s with trades :=
          alInsert s.trades buyer_key { tl with approval_id := approval_id } }
  | none => s

/-- The old-market-data block of the add_trade branch of nft_on_approve:
refresh the approval id of an existing listing under the given key. -/
def touchMarketApproval (s : State) (key : String) (approval_id : Nat) : State :=
  match alGet s.market key with
  | some md =>
      { s with market := alInsert s.market key { md with approval_id := approval_id } }
  | none => s

/-- nft_on_approve: the approval callback from NFT contracts, dispatching
on market_type. An insufficient storage deposit on the sale and add_trade
paths logs and returns without effect (beyond the already committed
approval-id updates) instead of panicking. -/
def nft_on_approve (nft_contract_id : AccountId) (signer_id : AccountId)
    (current_account : AccountId) (token_id : TokenId) (owner_id : AccountId)
    (approval_id : Nat) (args : MarketArgs) (now : Nat) (s : State) :
    Option (State × List Transfer) :=
  if current_account ≠ nft_contract_id ∧ owner_id = signer_id ∧
      nft_contract_id ∈ s.approved_nft_contract_ids then
    if args.market_type = MT_SALE then
      match args.price with
      | none => none
      | some price =>
          let buyer_key := make_triple nft_contract_id owner_id token_id
          let s1 := touchTradeApproval s buyer_key approval_id
          let owner_paid_storage := (alGet s1.storage_deposits signer_id).getD 0
          let signer_storage_required :=
            (((alGet s1.by_owner_id signer_id).getD []).length + 1) *
              STORAGE_ADD_MARKET_DATA
          if owner_paid_storage < signer_storage_required then
            some (s1, [])
          else
            let (s2, ts, _) := internal_delete_market_data s1 nft_contract_id token_id
            let ft_token_id_res := args.ft_token_id.getD NEAR
            if ft_token_id_res ∈ s2.approved_ft_token_ids then
              match internal_add_market_data owner_id approval_id nft_contract_id
                  token_id ft_token_id_res price args.started_at args.ended_at
                  args.end_price args.is_auction args.reserve_price now s2 with
              | some s3 => some (s3, ts)
              | none => none
            else none
    else if args.market_type = MT_ACCEPT_OFFER then
      match args.buyer_id, args.price with
      | some buyer, some price =>
          match internal_accept_offer nft_contract_id buyer token_id price s with
          | some (s1, ts, _) => some (s1, ts)
          | none => none
      | _, _ => none
    else if args.market_type = MT_ACCEPT_OFFER_SERIES then
      match args.buyer_id, args.price with
      | some buyer, some price =>
          if nft_contract_id ∈ s.marble_nft_contracts then
            match internal_accept_offer_series nft_contract_id buyer token_id price s with
            | some (s1, ts, _) => some (s1, ts)
            | none => none
          else none
      | _, _ => none
    else if args.market_type = MT_ADD_TRADE then
      let ckey := contractTokenKey nft_contract_id token_id
      let s1 := touchMarketApproval s ckey approval_id
      let buyer_key := make_triple nft_contract_id owner_id token_id
      let s2 := touchTradeApproval s1 buyer_key approval_id
      let owner_paid_storage := (alGet s2.storage_deposits signer_id).getD 0
      let signer_storage_required :=
        (((alGet s2.by_owner_id signer_id).getD []).length + 1) *
          STORAGE_ADD_MARKET_DATA
      if owner_paid_storage < signer_storage_required then
        some (s2, [])
      else
        match args.seller_nft_contract_id with
        | none => none
        | some snc =>
            match internal_add_trade snc args.seller_token_id
                args.seller_token_series_id nft_contract_id (some token_id)
                owner_id approval_id s2 with
            | some s3 => some (s3, [])
            | none => none
    else if args.market_type = MT_ACCEPT_TRADE then
      match args.buyer_id, args.buyer_nft_contract_id, args.buyer_token_id with
      | some buyer, some bnc, some btoken =>
          internal_accept_trade nft_contract_id buyer token_id owner_id bnc btoken s
      | _, _, _ => none
    else if args.market_type = MT_ACCEPT_TRADE_SERIES then
      match args.buyer_id, args.buyer_nft_contract_id, args.buyer_token_id with
      | some buyer, some bnc, some btoken =>
          if nft_contract_id ∈ s.marble_nft_contracts then
            internal_accept_trade_series nft_contract_id buyer token_id owner_id
              bnc btoken s
          else none
      | _, _, _ => none
    else
      some (s, [])
  else none

def METHOD_AUCTION : String := "auction"

def METHOD_BUY : String := "buy"

/-- The decoded msg of ft_on_transfer (struct TokenInfo). -/
structure TokenInfo where
  nft_contract_id : AccountId
  ft_token_id : AccountId
  token_id : TokenId
  method : String
  deriving Repr, DecidableEq

/-- ft_on_transfer: the fungible-token receiver entry. method auction
routes to the FT bid path, method buy to the FT purchase path; any other
method is a no-op. The returned 0 means all transferred tokens are kept. -/
def ft_on_transfer (sender_id : AccountId) (amount : Nat) (msg : TokenInfo)
    (now : Nat) (s : State) : Option (State × List Transfer × Nat) :=
  if msg.method = METHOD_AUCTION then
    match internal_ft_token_add_bid msg.nft_contract_id msg.ft_token_id
        msg.token_id sender_id amount now s with
    | some (s1, ts) => some (s1, ts, 0)
    | none => none
  else if msg.method = METHOD_BUY then
    match internal_buy msg.nft_contract_id msg.token_id msg.ft_token_id
        sender_id amount now s with
    | some (s1, ts, _, _) => some (s1, ts, 0)
    | none => none
  else
    some (s, [], 0)

/-! Remaining public mutating surface (admin operations and the
resolve_offer settlement callback), needed to quantify over every public
operation. -/

def set_treasury (caller : AccountId) (deposit : Nat) (treasury_id : AccountId)
    (s : State) : Option State :=
  if deposit = 1 ∧ caller = s.owner_id then some { s with treasury_id := treasury_id }
  else none

def transfer_ownership (caller : AccountId) (deposit : Nat) (owner_id : AccountId)
    (s : State) : Option State :=
  if deposit = 1 ∧ caller = s.owner_id then some { s with owner_id := owner_id }
  else none

def addAccounts (accounts : List AccountId) (set : List AccountId) : List AccountId :=
  accounts.foldl (fun acc id => if id ∈ acc then acc else acc ++ [id]) set

def removeAccounts (accounts : List AccountId) (set : List AccountId) : List AccountId :=
  accounts.foldl (fun acc id =>
    match acc.findIdx? (fun k => k = id) with
    | none => acc
    | some i =>
        match acc.getLast? with
        | none => acc
        | some last => (acc.set i last).dropLast) set

def add_approved_nft_contract_ids (caller : AccountId) (deposit : Nat)
    (ids : List AccountId) (s : State) : Option State :=
  if deposit = 1 ∧ caller = s.owner_id then
    some { s with approved_nft_contract_ids := addAccounts ids s.approved_nft_contract_ids }
  else none

def remove_approved_nft_contract_ids (caller : AccountId) (deposit : Nat)
    (ids : List AccountId) (s : State) : Option State :=
  if deposit = 1 ∧ caller = s.owner_id then
    some { s with approved_nft_contract_ids :=
      removeAccounts ids s.approved_nft_contract_ids }
  else none

def add_approved_marble_nft_contract_ids (caller : AccountId) (deposit : Nat)
    (ids : List AccountId) (s : State) : Option State :=
  if deposit = 1 ∧ caller = s.owner_id then
    some { s with marble_nft_contracts := addAccounts ids s.marble_nft_contracts }
  else none

def add_approved_ft_token_ids (caller : AccountId) (deposit : Nat)
    (ids : List AccountId) (s : State) : Option State :=
  if deposit = 1 ∧ caller = s.owner_id then
    some { s with approved_ft_token_ids := addAccounts ids s.approved_ft_token_ids }
  else none

/-- resolve_offer: settlement callback for accepted offers (fee applied
on the seller side, native payments only). Only its state effects are
modelled; it reads the lazily updated fee schedule and removes the
seller-side trade list on a successful native payout. -/
def resolve_offer (seller_id : AccountId) (offer_data : OfferData)
    (token_id : TokenId) (promise_result : Option PromiseValue) (now : Nat)
    (s : State) : Option (State × List Transfer) :=
  match payoutOption offer_data.price promise_result with
  | none =>
      match promise_result with
      | none =>
          if offer_data.ft_token_id = NEAR then
            some (s, [Transfer.native offer_data.buyer_id offer_data.price])
          else some (s, [])
      | some _ =>
          if offer_data.ft_token_id = NEAR then
            match calculate_current_transaction_fee now s.transaction_fee with
            | none => none
            | some (fee, tf) =>
                let treasury_fee := offer_data.price * fee / 10000
                if treasury_fee ≤ offer_data.price then
                  some ({ s with transaction_fee := tf },
                    Transfer.native seller_id (offer_data.price - treasury_fee) ::
                    (if treasury_fee > 0 then [Transfer.native s.treasury_id treasury_fee]
                     else []))
                else none
          else some (s, [])
  | some payout =>
      if offer_data.ft_token_id = NEAR then
        match calculate_current_transaction_fee now s.transaction_fee with
        | none => none
        | some (fee, tf) =>
            let treasury_fee := offer_data.price * fee / 10000
            match payoutTransfers NEAR seller_id s.treasury_id treasury_fee payout with
            | none => none
            | some ts =>
                let seller_key := make_triple offer_data.nft_contract_id seller_id token_id
                let s1 := { s with transaction_fee := tf }
                some ({ s1 with trades := alRemove s1.trades seller_key }, ts)
      else some (s, [])

/-! The public operation surface as a step relation, for whole-system
invariants. A panicking call aborts its transaction, leaving the state
unchanged. -/

/-- Contract.new: the initial state. The native sentinel is always an
approved payment token. -/
def Contract.new (owner_id : AccountId) (treasury_id : AccountId)
    (approved_ft_token_ids : List AccountId)
    (approved_nft_contract_ids : List AccountId)
    (marble_nft_contracts : List AccountId) (current_fee : Nat) : State :=
  { owner_id := owner_id,
    treasury_id := treasury_id,
    old_market := [],
    market := [],
    approved_ft_token_ids := addAccounts approved_ft_token_ids [NEAR],
    approved_nft_contract_ids := addAccounts approved_nft_contract_ids [],
    storage_deposits := [],
    by_owner_id := [],
    offers := [],
    marble_nft_contracts := addAccounts marble_nft_contracts [],
    transaction_fee := { next_fee := none, start_time := none, current_fee := current_fee },
    trades := [],
    market_data_transaction_fee := [] }

/-- One public call with its environment (caller, attached deposit,
block timestamp) and arguments. -/
inductive Op where
  | setTreasury (caller : AccountId) (deposit : Nat) (treasury_id : AccountId)
  | setTransactionFee (caller : AccountId) (deposit : Nat) (now : Nat)
      (next_fee : Nat) (start_time : Option Nat)
  | calcCurrentFee (now : Nat)
  | calcMarketDataFee (now : Nat) (nft_contract_id : AccountId) (token_id : TokenId)
  | transferOwnership (caller : AccountId) (deposit : Nat) (owner_id : AccountId)
  | addApprovedNft (caller : AccountId) (deposit : Nat) (ids : List AccountId)
  | removeApprovedNft (caller : AccountId) (deposit : Nat) (ids : List AccountId)
  | addApprovedMarble (caller : AccountId) (deposit : Nat) (ids : List AccountId)
  | addApprovedFt (caller : AccountId) (deposit : Nat) (ids : List AccountId)
  | buyOp (caller : AccountId) (deposit : Nat) (now : Nat) (nft_contract_id : AccountId)
      (token_id : TokenId) (ft_token_id : Option AccountId) (price : Option Nat)
  | resolvePurchaseOp (buyer_id : AccountId) (market_data : MarketData) (price : Nat)
      (promise_result : Option PromiseValue) (now : Nat)
  | resolveOfferOp (seller_id : AccountId) (offer_data : OfferData) (token_id : TokenId)
      (promise_result : Option PromiseValue) (now : Nat)
  | addOfferOp (caller : AccountId) (deposit : Nat) (nft_contract_id : AccountId)
      (token_id : Option TokenId) (token_series_id : Option TokenId)
      (ft_token_id : AccountId) (price : Nat)
  | deleteOfferOp (caller : AccountId) (deposit : Nat) (nft_contract_id : AccountId)
      (token_id : Option TokenId) (token_series_id : Option TokenId)
  | deleteTradeOp (caller : AccountId) (deposit : Nat) (nft_contract_id : AccountId)
      (token_id : Option TokenId) (token_series_id : Option TokenId)
      (buyer_nft_contract_id : AccountId) (buyer_token_id : TokenId)
  | addBidOp (caller : AccountId) (deposit : Nat) (now : Nat)
      (nft_contract_id : AccountId) (ft_token_id : AccountId) (token_id : TokenId)
      (amount : Nat)
  | cancelBidOp (caller : AccountId) (deposit : Nat) (nft_contract_id : AccountId)
      (token_id : TokenId) (account_id : AccountId)
  | acceptBidOp (caller : AccountId) (deposit : Nat) (now : Nat)
      (nft_contract_id : AccountId) (token_id : TokenId)
  | updateMarketDataOp (caller : AccountId) (deposit : Nat)
      (nft_contract_id : AccountId) (token_id : TokenId) (ft_token_id : AccountId)
      (price : Nat) (reserve_price : Option Nat)
  | deleteMarketDataOp (caller : AccountId) (deposit : Nat)
      (nft_contract_id : AccountId) (token_id : TokenId)
  | storageDepositOp (caller : AccountId) (account_id : Option AccountId) (deposit : Nat)
  | storageWithdrawOp (caller : AccountId) (deposit : Nat)
  | nftOnApproveOp (nft_contract_id : AccountId) (signer_id : AccountId)
      (current_account : AccountId) (token_id : TokenId) (owner_id : AccountId)
      (approval_id : Nat) (args : MarketArgs) (now : Nat)
  | ftOnTransferOp (sender_id : AccountId) (amount : Nat) (msg : TokenInfo) (now : Nat)
  deriving Repr

/-- The state an operation commits when it completes, none when it
panics. -/
def stepResult (op : Op) (s : State) : Option State :=
  match op with
  | .setTreasury caller deposit treasury_id => set_treasury caller deposit treasury_id s
  | .setTransactionFee caller deposit now next_fee start_time =>
      set_transaction_fee caller deposit now next_fee start_time s
  | .calcCurrentFee now =>
      match calculate_current_transaction_fee now s.transaction_fee with
      | some (_, tf) => some { s with transaction_fee := tf }
      | none => none
  | .calcMarketDataFee now nft_contract_id token_id =>
      match calculate_market_data_transaction_fee now s nft_contract_id token_id with
      | some (_, s1) => some s1
      | none => none
  | .transferOwnership caller deposit owner_id =>
      transfer_ownership caller deposit owner_id s
  | .addApprovedNft caller deposit ids =>
      add_approved_nft_contract_ids caller deposit ids s
  | .removeApprovedNft caller deposit ids =>
      remove_approved_nft_contract_ids caller deposit ids s
  | .addApprovedMarble caller deposit ids =>
      add_approved_marble_nft_contract_ids caller deposit ids s
  | .addApprovedFt caller deposit ids =>
      add_approved_ft_token_ids caller deposit ids s
  | .buyOp caller deposit now nft_contract_id token_id ft_token_id price =>
      match buy caller deposit now nft_contract_id token_id ft_token_id price s with
      | some (s1, _, _, _) => some s1
      | none => none
  | .resolvePurchaseOp buyer_id market_data price promise_result now =>
      match resolve_purchase buyer_id market_data price promise_result now s with
      | some out => some out.state
      | none => none
  | .resolveOfferOp seller_id offer_data token_id promise_result now =>
      match resolve_offer seller_id offer_data token_id promise_result now s with
      | some (s1, _) => some s1
      | none => none
  | .addOfferOp caller deposit nft_contract_id token_id token_series_id ft_token_id price =>
      match add_offer caller deposit nft_contract_id token_id token_series_id
          ft_token_id price s with
      | some (s1, _) => some s1
      | none => none
  | .deleteOfferOp caller deposit nft_contract_id token_id token_series_id =>
      match delete_offer caller deposit nft_contract_id token_id token_series_id s with
      | some (s1, _) => some s1
      | none => none
  | .deleteTradeOp caller deposit nft_contract_id token_id token_series_id bnc btoken =>
      delete_trade caller deposit nft_contract_id token_id token_series_id bnc btoken s
  | .addBidOp caller deposit now nft_contract_id ft_token_id token_id amount =>
      match add_bid caller deposit now nft_contract_id ft_token_id token_id amount s with
      | some (s1, _) => some s1
      | none => none
  | .cancelBidOp caller deposit nft_contract_id token_id account_id =>
      match cancel_bid caller deposit nft_contract_id token_id account_id s with
      | some (s1, _) => some s1
      | none => none
  | .acceptBidOp caller deposit now nft_contract_id token_id =>
      match accept_bid caller deposit now nft_contract_id token_id s with
      | some (s1, _, _, _, _) => some s1
      | none => none
  | .updateMarketDataOp caller deposit nft_contract_id token_id ft_token_id price reserve =>
      update_market_data caller deposit nft_contract_id token_id ft_token_id price reserve s
  | .deleteMarketDataOp caller deposit nft_contract_id token_id =>
      match delete_market_data caller deposit nft_contract_id token_id s with
      | some (s1, _) => some s1
      | none => none
  | .storageDepositOp caller account_id deposit =>
      storage_deposit caller account_id deposit s
  | .storageWithdrawOp caller deposit =>
      match storage_withdraw caller deposit s with
      | some (s1, _) => some s1
      | none => none
  | .nftOnApproveOp nft_contract_id signer_id current_account token_id owner_id
      approval_id args now =>
      match nft_on_approve nft_contract_id signer_id current_account token_id
          owner_id approval_id args now s with
      | some (s1, _) => some s1
      | none => none
  | .ftOnTransferOp sender_id amount msg now =>
      match ft_on_transfer sender_id amount msg now s with
      | some (s1, _, _) => some s1
      | none => none

/-- One transaction: panics roll back to the pre-state. -/
def step (op : Op) (s : State) : State :=
  (stepResult op s).getD s

/-- A sequence of public operations. -/
def run (ops : List Op) (s : State) : State :=
  ops.foldl (fun t op => step op t) s

/-! The storage-accounting quantities of claim C9. -/

/-- Number of owner-index entries (listings, offers, trade intents) of an
account. -/
def ownedCount (s : State) (a : AccountId) : Nat :=
  ((alGet s.by_owner_id a).getD []).length

/-- Stored storage-deposit balance of an account. -/
def storageBal (s : State) (a : AccountId) : Nat :=
  (alGet s.storage_deposits a).getD 0

/-- The storage invariant: every account's balance covers the storage
bond of all entries it owns. -/
def StorageInv (s : State) : Prop :=
  ∀ a : AccountId, ownedCount s a * STORAGE_ADD_MARKET_DATA ≤ storageBal s a

/-! Concrete fixtures used by witnesses and counterexamples. -/

def aliceA : AccountId := "alice"

def bobA : AccountId := "bob"

def carolA : AccountId := "carol"

def treasA : AccountId := "treasury"

def nftA : AccountId := "nft"

def tok1 : TokenId := "1:1"

def dayNs : Nat := 86400000000000

/-- A freshly initialized contract owned by carol with treasury and a 5
percent fee. -/
def s0 : State := Contract.new carolA treasA [] [nftA] [nftA] 500

/-- An English auction listing by alice: start price 100, no end price. -/
def mdEnglish : MarketData :=
  { owner_id := aliceA, approval_id := 1, nft_contract_id := nftA, token_id := tok1,
    ft_token_id := NEAR, price := 100, bids := some [], started_at := some 0,
    ended_at := some (10 * FIVE_MINUTES), end_price := none,
    accept_nft_contract_id := none, accept_token_id := none,
    is_auction := some true, reserve_price := some 100 }

def sEnglish : State := { s0 with market := [(contractTokenKey nftA tok1, mdEnglish)] }

/-- A fixed-price listing without an end time. -/
def mdFixed : MarketData :=
  { mdEnglish with ended_at := none, is_auction := none, bids := none }

def sFixed : State := { s0 with market := [(contractTokenKey nftA tok1, mdFixed)] }

/-- A Dutch auction listing: start price 3e24 decaying to 2e24 over seven
days starting at day 100. -/
def mdDutch : MarketData :=
  { mdEnglish with
    price := 3 * 10 ^ 24,
    end_price := some (2 * 10 ^ 24),
    started_at := some (100 * dayNs),
    ended_at := some (107 * dayNs) }

def sDutch : State := { s0 with market := [(contractTokenKey nftA tok1, mdDutch)] }

/-- A state holding a 500-basis-point fee snapshot for the fixture
listing key. -/
def sSnap : State :=
  { s0 with market_data_transaction_fee := [(contractTokenKey nftA tok1, 500)] }

/-- A state where bob has prepaid storage for ten entries. -/
def sOffer : State :=
  { s0 with storage_deposits := [(bobA, 10 * STORAGE_ADD_MARKET_DATA)] }

/-- A prior standing offer by bob at price 40. -/
def offPrior : OfferData :=
  { buyer_id := bobA, nft_contract_id := nftA, token_id := some tok1,
    token_series_id := none, ft_token_id := NEAR, price := 40 }

/-- Like sOffer but bob already has a standing offer on the same target. -/
def sOfferPrior : State :=
  { s0 with
    storage_deposits := [(bobA, 10 * STORAGE_ADD_MARKET_DATA)],
    offers := [(make_triple nftA bobA tok1, offPrior)],
    by_owner_id := [(bobA, [make_triple nftA bobA tok1])] }

def ftTok : AccountId := "ft.token"

/-- A fixed-price listing denominated in a fungible token. -/
def mdFT : MarketData := { mdFixed with ft_token_id := ftTok }

def sFT : State := { s0 with market := [(contractTokenKey nftA tok1, mdFT)] }

/-- An ft_on_transfer message buying the fixture listing. -/
def msgBuyFT : TokenInfo :=
  { nft_contract_id := nftA, ft_token_id := ftTok, token_id := tok1,
    method := METHOD_BUY }

/-- A bid by carol at 100 on the English auction fixture. -/
def bidCarol : Bid := { bidder_id := carolA, price := 100 }

def mdEnglishBid : MarketData := { mdEnglish with bids := some [bidCarol] }

def sEnglishBid : State := { s0 with market := [(contractTokenKey nftA tok1, mdEnglishBid)] }

/-- The snapshot-removal state update performed at settlement. -/
def removeSnapshot (s : State) (key : String) : State :=
  { s with market_data_transaction_fee := alRemove s.market_data_transaction_fee key }

/-- Operations that only touch the fee schedule: set_transaction_fee and
the lazy calculate_current_transaction_fee. -/
def isFeeScheduleOp : Op → Prop
  | Op.setTransactionFee _ _ _ _ _ => True
  | Op.calcCurrentFee _ => True
  | _ => False

/-- The state after alice lists the fixture token at price 100 on the
fresh contract (snapshot fee 500 captured). -/
def s1Created : State :=
  (internal_add_market_data aliceA 1 nftA tok1 NEAR 100 none none none none none 0
    s0).getD s0

/-- The combined effect of bob adding and then deleting a 70-unit offer
on the state that already holds his prior 40-unit offer. -/
def offerPairResult : Option (State × List Transfer) :=
  (add_offer bobA 70 nftA (some tok1) none NEAR 70 sOfferPrior).bind
    (fun r => (delete_offer bobA 1 nftA (some tok1) none r.1).map
      (fun r2 => (r2.1, r.2 ++ r2.2)))

/-! Shared lemmas about the association-list operations. -/

theorem alGet_eq_none_iff {V : Type} (m : List (String × V)) (key : String) :
    alGet m key = none ↔ key ∉ m.map Prod.fst := by
  induction m with
  | nil => simp [alGet]
  | cons p rest ih =>
      obtain ⟨k, v⟩ := p
      simp only [alGet, List.map_cons, List.mem_cons]
      by_cases h : k = key
      · subst h; simp
      · have h2 : ¬ key = k := fun hh => h hh.symm
        simp [h, h2, ih]

theorem alGet_alInsert_self {V : Type} (m : List (String × V)) (key : String) (v : V) :
    alGet (alInsert m key v) key = some v := by
  induction m with
  | nil => simp [alInsert, alGet]
  | cons p rest ih =>
      obtain ⟨k, w⟩ := p
      by_cases h : k = key
      · simp [alInsert, alGet, h]
      · simp [alInsert, alGet, h, ih]

theorem alGet_alInsert_ne {V : Type} (m : List (String × V)) (key other : String) (v : V)
    (h : other ≠ key) : alGet (alInsert m key v) other = alGet m other := by
  induction m with
  | nil => simp [alInsert, alGet, Ne.symm h]
  | cons p rest ih =>
      obtain ⟨k, w⟩ := p
      by_cases hk : k = key
      · subst hk
        simp [alInsert, alGet, Ne.symm h]
      · simp [alInsert, alGet, hk, ih]

theorem alInsert_eq_append_of_alGet_none {V : Type} (m : List (String × V))
    (key : String) (v : V) (h : alGet m key = none) :
    alInsert m key v = m ++ [(key, v)] := by
  induction m with
  | nil => simp [alInsert]
  | cons p rest ih =>
      obtain ⟨k, w⟩ := p
      simp only [alGet] at h
      by_cases hk : k = key
      · simp [hk] at h
      · simp only [if_neg hk] at h
        simp [alInsert, hk, ih h]

theorem alInsert_self_of_alGet {V : Type} (m : List (String × V)) (key : String) (v : V)
    (h : alGet m key = some v) : alInsert m key v = m := by
  induction m with
  | nil => simp [alGet] at h
  | cons p rest ih =>
      obtain ⟨k, w⟩ := p
      simp only [alGet] at h
      by_cases hk : k = key
      · subst hk
        simp only [if_pos rfl] at h
        have hv : w = v := Option.some.inj h
        simp [alInsert, hv]
      · simp only [if_neg hk] at h
        simp [alInsert, hk, ih h]

theorem alInsert_alInsert {V : Type} (m : List (String × V)) (key : String) (v w : V) :
    alInsert (alInsert m key w) key v = alInsert m key v := by
  induction m with
  | nil => simp [alInsert]
  | cons p rest ih =>
      obtain ⟨k, u⟩ := p
      by_cases hk : k = key
      · simp [alInsert, hk]
      · simp [alInsert, hk, ih]

theorem set_append_length {V : Type} (m : List V) (x y : V) :
    (m ++ [x]).set m.length y = m ++ [y] := by
  induction m with
  | nil => simp
  | cons a rest ih => simp [ih]

theorem alRemove_append_single {V : Type} (m : List (String × V)) (key : String) (v : V)
    (h : alGet m key = none) : alRemove (m ++ [(key, v)]) key = m := by
  have hmem : key ∉ m.map Prod.fst := (alGet_eq_none_iff m key).mp h
  have hfind : m.findIdx? (fun p => p.1 = key) = none := by
    rw [List.findIdx?_eq_none_iff]
    intro x hx
    simp only [decide_eq_false_iff_not]
    intro hc
    exact hmem (hc ▸ List.mem_map_of_mem Prod.fst hx)
  have h0 : List.findIdx? (fun p : String × V => p.1 = key) [(key, v)] = some 0 := by
    simp
  unfold alRemove
  rw [List.findIdx?_append, hfind, h0]
  simp only [Option.none_or, Option.map_some', Nat.zero_add]
  rw [List.getLast?_concat]
  show ((m ++ [(key, v)]).set m.length (key, v)).dropLast = m
  rw [set_append_length, List.dropLast_concat]

theorem usInsert_append_of_not_mem (s : List String) (key : String) (h : key ∉ s) :
    usInsert s key = s ++ [key] := by
  simp [usInsert, h]

theorem usRemove_append_single (s : List String) (key : String) (h : key ∉ s) :
    usRemove (s ++ [key]) key = s := by
  have hfind : s.findIdx? (fun k => k = key) = none := by
    rw [List.findIdx?_eq_none_iff]
    intro x hx
    simp only [decide_eq_false_iff_not]
    intro hc
    exact h (hc ▸ hx)
  have h0 : List.findIdx? (fun k : String => k = key) [key] = some 0 := by simp
  unfold usRemove
  rw [List.findIdx?_append, hfind, h0]
  simp only [Option.none_or, Option.map_some', Nat.zero_add]
  rw [List.getLast?_concat]
  show ((s ++ [key]).set s.length key).dropLast = s
  rw [set_append_length, List.dropLast_concat]

theorem usInsert_length_le (s : List String) (key : String) :
    (usInsert s key).length ≤ s.length + 1 := by
  unfold usInsert
  split
  · exact Nat.le_succ _
  · simp

theorem usRemove_length_le (s : List String) (key : String) :
    (usRemove s key).length ≤ s.length := by
  unfold usRemove
  split
  · exact Nat.le_refl _
  · split
    · exact Nat.le_refl _
    · simp only [List.length_dropLast, List.length_set]
      exact Nat.sub_le _ _

theorem alErase_of_not_mem {V : Type} (m : List (String × V)) (key : String)
    (h : alGet m key = none) : alErase m key = m := by
  induction m with
  | nil => simp [alErase]
  | cons p rest ih =>
      obtain ⟨k, w⟩ := p
      simp only [alGet] at h
      by_cases hk : k = key
      · simp [hk] at h
      · simp only [if_neg hk] at h
        simp [alErase, hk, ih h]

theorem alErase_append_single {V : Type} (m : List (String × V)) (key : String) (v : V)
    (h : alGet m key = none) : alErase (m ++ [(key, v)]) key = m := by
  induction m with
  | nil => simp [alErase]
  | cons p rest ih =>
      obtain ⟨k, w⟩ := p
      simp only [alGet] at h
      by_cases hk : k = key
      · simp [hk] at h
      · simp only [if_neg hk] at h
        simp [alErase, hk, ih h]

theorem alGet_alErase_self {V : Type} (m : List (String × V)) (key : String) :
    alGet (alErase m key) key = none := by
  induction m with
  | nil => simp [alErase, alGet]
  | cons p rest ih =>
      obtain ⟨k, w⟩ := p
      by_cases hk : k = key
      · simp [alErase, hk, ih]
      · simp [alErase, alGet, hk, ih]

theorem alGet_alErase_ne {V : Type} (m : List (String × V)) (key other : String)
    (h : other ≠ key) : alGet (alErase m key) other = alGet m other := by
  induction m with
  | nil => simp [alErase]
  | cons p rest ih =>
      obtain ⟨k, w⟩ := p
      by_cases hk : k = key
      · subst hk
        have hko : ¬ k = other := fun hh => h hh.symm
        simp [alErase, alGet, hko, ih]
      · simp [alErase, alGet, hk, ih]

/-! Payout validation lemmas. -/

theorem checkedSubAll_eq_some_iff (l : List Nat) (price r : Nat) :
    checkedSubAll price l = some r ↔ l.sum ≤ price ∧ r = price - l.sum := by
  induction l generalizing price with
  | nil =>
      simp only [checkedSubAll, List.sum_nil, Option.some.injEq]
      constructor
      · intro h
        exact ⟨Nat.zero_le _, by omega⟩
      · intro ⟨_, h⟩
        omega
  | cons v rest ih =>
      simp only [checkedSubAll, List.sum_cons]
      by_cases h : v ≤ price
      · rw [if_pos h, ih]
        constructor
        · rintro ⟨h1, h2⟩
          exact ⟨by omega, by omega⟩
        · rintro ⟨h1, h2⟩
          exact ⟨by omega, by omega⟩
      · rw [if_neg h]
        constructor
        · intro hc
          cases hc
        · rintro ⟨h1, _⟩
          omega

theorem acceptPayout_eq_ite (price : Nat) (m : List (AccountId × Nat)) :
    acceptPayout price m =
      if (m.map Prod.snd).sum ≤ price ∧ price - (m.map Prod.snd).sum ≤ 100 then some m
      else none := by
  unfold acceptPayout
  cases hsub : checkedSubAll price (m.map Prod.snd) with
  | none =>
      have : ¬ ((m.map Prod.snd).sum ≤ price ∧ price - (m.map Prod.snd).sum ≤ 100) := by
        rintro ⟨h1, _⟩
        have := (checkedSubAll_eq_some_iff (m.map Prod.snd) price
          (price - (m.map Prod.snd).sum)).mpr ⟨h1, rfl⟩
        rw [hsub] at this
        cases this
      rw [if_neg this]
  | some r =>
      have hr := (checkedSubAll_eq_some_iff (m.map Prod.snd) price r).mp hsub
      show (if r ≤ 100 then some m else none) = _
      by_cases hle : r ≤ 100
      · rw [if_pos hle, if_pos ⟨hr.1, hr.2 ▸ hle⟩]
      · rw [if_neg hle, if_neg (by rintro ⟨_, h2⟩; exact hle (hr.2 ▸ h2))]

/-- C3: resolve_purchase accepts a returned payout map, in either the
wrapped or the bare-map form, exactly when the amounts sum to at most
the sale price (the checked subtraction chain never underflows) and the
remainder price - sum is at most 100; every other payout map is
rejected, as is an unparseable value. -/
theorem C3_payout_acceptance (price : Nat) (v : PromiseValue)
    (m : List (AccountId × Nat))
    (hv : v = PromiseValue.bareMap m ∨ v = PromiseValue.wrapped m) :
    (payoutOption price (some v) = some m ↔
      (m.map Prod.snd).sum ≤ price ∧ price - (m.map Prod.snd).sum ≤ 100) ∧
    (¬ ((m.map Prod.snd).sum ≤ price ∧ price - (m.map Prod.snd).sum ≤ 100) →
      payoutOption price (some v) = none) ∧
    payoutOption price (some PromiseValue.malformed) = none := by
  have hcase : payoutOption price (some v) = acceptPayout price m := by
    cases hv with
    | inl h => rw [h]; rfl
    | inr h => rw [h]; rfl
  refine ⟨?_, ?_, rfl⟩
  · rw [hcase, acceptPayout_eq_ite]
    by_cases hcond : (m.map Prod.snd).sum ≤ price ∧ price - (m.map Prod.snd).sum ≤ 100
    · rw [if_pos hcond]
      exact ⟨fun _ => hcond, fun _ => rfl⟩
    · rw [if_neg hcond]
      constructor
      · intro hc
        cases hc
      · intro hc
        exact absurd hc hcond
  · intro hcond
    rw [hcase, acceptPayout_eq_ite, if_neg hcond]

/-- Witness for C3 at a concrete accepted payout and a concrete rejected
one. -/
theorem C3_payout_acceptance_witness :
    payoutOption 1000 (some (PromiseValue.bareMap [(aliceA, 900), (bobA, 50)])) =
      some [(aliceA, 900), (bobA, 50)] ∧
    payoutOption 1000 (some (PromiseValue.wrapped [(aliceA, 900), (bobA, 150)])) = none := by
  constructor
  · exact (C3_payout_acceptance 1000 _ _ (Or.inl rfl)).1.mpr (by decide)
  · exact (C3_payout_acceptance 1000 _ [(aliceA, 900), (bobA, 150)]
      (Or.inr rfl)).2.1 (by decide)

/-- C8: both bidding routes read the listing ended_at unconditionally
after the optional timing checks, so a bid on a listing without an end
time panics, and a successful bid implies the listing had an end time. -/
theorem C8_bid_requires_ended_at (caller : AccountId) (deposit : Nat) (now : Nat)
    (nft_contract_id ft_token_id : AccountId) (token_id : TokenId) (amount : Nat)
    (s : State) :
    (∀ md, alGet s.market (contractTokenKey nft_contract_id token_id) = some md →
      md.ended_at = none →
      add_bid caller deposit now nft_contract_id ft_token_id token_id amount s = none ∧
      internal_ft_token_add_bid nft_contract_id ft_token_id token_id caller amount
        now s = none) ∧
    (∀ r, add_bid caller deposit now nft_contract_id ft_token_id token_id amount s =
        some r →
      ∃ md, alGet s.market (contractTokenKey nft_contract_id token_id) = some md ∧
        md.ended_at.isSome) ∧
    (∀ r, internal_ft_token_add_bid nft_contract_id ft_token_id token_id caller
        amount now s = some r →
      ∃ md, alGet s.market (contractTokenKey nft_contract_id token_id) = some md ∧
        md.ended_at.isSome) := by
  refine ⟨?_, ?_, ?_⟩
  · intro md hmd hend
    constructor
    · unfold add_bid
      simp only [hmd, hend]
      simp
    · unfold internal_ft_token_add_bid
      simp only [hmd, hend]
      simp
  · intro r hr
    unfold add_bid at hr
    cases hmd : alGet s.market (contractTokenKey nft_contract_id token_id) with
    | none => simp only [hmd] at hr; cases hr
    | some md =>
        simp only [hmd] at hr
        refine ⟨md, rfl, ?_⟩
        cases hend : md.ended_at with
        | none =>
            simp only [hend] at hr
            simp at hr
        | some en => rfl
  · intro r hr
    unfold internal_ft_token_add_bid at hr
    cases hmd : alGet s.market (contractTokenKey nft_contract_id token_id) with
    | none => simp only [hmd] at hr; cases hr
    | some md =>
        simp only [hmd] at hr
        refine ⟨md, rfl, ?_⟩
        cases hend : md.ended_at with
        | none =>
            simp only [hend] at hr
            simp at hr
        | some en => rfl

/-- Witness for C8: a bid on the fixed-price fixture listing (no
ended_at) panics on both routes. -/
theorem C8_bid_requires_ended_at_witness :
    add_bid bobA 100 1000 nftA NEAR tok1 100 sFixed = none ∧
    internal_ft_token_add_bid nftA NEAR tok1 bobA 100 1000 sFixed = none :=
  (C8_bid_requires_ended_at bobA 100 1000 nftA NEAR tok1 100 sFixed).1
    mdFixed (by decide) (by decide)

/-- C10: buy panics on every listing whose payment token is not the
native sentinel, whatever the attached deposit; ft_on_transfer with
method buy routes to internal_buy, whose success requires the transfer
token to match the listing's payment token. -/
theorem C10_ft_listing_buy_routes (caller : AccountId) (deposit : Nat) (now : Nat)
    (nft_contract_id : AccountId) (token_id : TokenId)
    (ft_arg : Option AccountId) (price_arg : Option Nat)
    (sender : AccountId) (amount : Nat) (ft_token_id : AccountId) (s : State) :
    (∀ md, marketLookup s (contractTokenKey nft_contract_id token_id) = some md →
      md.ft_token_id ≠ NEAR →
      buy caller deposit now nft_contract_id token_id ft_arg price_arg s = none) ∧
    (∀ msg : TokenInfo, msg.method = METHOD_BUY →
      ft_on_transfer sender amount msg now s =
        match internal_buy msg.nft_contract_id msg.token_id msg.ft_token_id sender
            amount now s with
        | some (s1, ts, _, _) => some (s1, ts, 0)
        | none => none) ∧
    (∀ r, internal_buy nft_contract_id token_id ft_token_id sender amount now s =
        some r →
      ∃ md, marketLookup s (contractTokenKey nft_contract_id token_id) = some md ∧
        ft_token_id = md.ft_token_id) := by
  refine ⟨?_, ?_, ?_⟩
  · intro md hmd hne
    unfold buy
    simp only [hmd]
    rw [if_neg]
    rintro ⟨-, h2⟩
    exact hne h2
  · intro msg hmsg
    unfold ft_on_transfer
    rw [hmsg]
    rw [if_neg (by decide), if_pos rfl]
  · intro r hr
    unfold internal_buy at hr
    cases hmd : marketLookup s (contractTokenKey nft_contract_id token_id) with
    | none => simp only [hmd] at hr; cases hr
    | some md =>
        simp only [hmd] at hr
        split at hr
        · rename_i hcond
          exact ⟨md, rfl, hcond.2.1⟩
        · cases hr

/-- Witness for C10: native buy of the FT-denominated fixture listing
panics, while the FT receiver route reaches internal_buy. -/
theorem C10_ft_listing_buy_routes_witness :
    buy bobA (10 ^ 24) 0 nftA tok1 none none sFT = none ∧
    ft_on_transfer bobA 100 msgBuyFT 0 sFT =
      match internal_buy nftA tok1 ftTok bobA 100 0 sFT with
      | some (s1, ts, _, _) => some (s1, ts, 0)
      | none => none := by
  constructor
  · exact (C10_ft_listing_buy_routes bobA (10 ^ 24) 0 nftA tok1 none none bobA 100
      ftTok sFT).1 mdFT (by decide) (by decide)
  · exact (C10_ft_listing_buy_routes bobA (10 ^ 24) 0 nftA tok1 none none bobA 100
      ftTok sFT).2.1 msgBuyFT rfl

/-! Acceptance condition of the shared bid insertion core. -/

theorem internal_cancel_bid_insert_isSome (nft_contract_id : AccountId)
    (token_id : TokenId) (account_id : AccountId) (s : State) (md2 : MarketData)
    (bs : List Bid) (hb : md2.bids = some bs) (hne : bs ≠ []) :
    (internal_cancel_bid nft_contract_id token_id account_id
      { s with market :=
          alInsert s.market (contractTokenKey nft_contract_id token_id) md2 }).isSome := by
  unfold internal_cancel_bid
  simp only [alGet_alInsert_self, hb]
  have hf : bs.isEmpty = false := by
    cases bs with
    | nil => exact absurd rfl hne
    | cons a l => rfl
  simp [hf]

theorem addBidFinish_isSome (nft_contract_id : AccountId) (token_id : TokenId)
    (md : MarketData) (bids3 : List Bid) (refunds : List Transfer) (s : State)
    (hne : bids3 ≠ []) :
    (addBidFinish nft_contract_id token_id md bids3 refunds s).isSome := by
  unfold addBidFinish
  dsimp only
  split
  · split
    · rename_i hh
      cases bids3 with
      | nil => exact absurd rfl hne
      | cons a l => simp at hh
    · rename_i first hh
      split
      · rfl
      · rename_i hcc
        have hc := internal_cancel_bid_insert_isSome nft_contract_id token_id
          first.bidder_id s { md with bids := some bids3 } bids3 rfl hne
        simp only [hcc] at hc
        cases hc
  · rfl

theorem addBidCore_empty_isSome (nft_contract_id : AccountId) (token_id : TokenId)
    (bidder_id : AccountId) (amount : Nat) (md : MarketData)
    (refundOf : Bid → Transfer) (s : State) (h : md.bids.getD [] = []) :
    (addBidCore nft_contract_id token_id bidder_id amount md refundOf s).isSome ↔
      amount ≥ md.price := by
  unfold addBidCore
  simp only [h, List.isEmpty_nil, not_true, if_false, List.nil_append]
  by_cases hamt : amount ≥ md.price
  · rw [if_pos hamt]
    exact iff_of_true (addBidFinish_isSome _ _ _ _ _ _ (by simp)) hamt
  · rw [if_neg hamt]
    exact iff_of_false (by simp) hamt

theorem addBidCore_concat_isSome (nft_contract_id : AccountId) (token_id : TokenId)
    (bidder_id : AccountId) (amount : Nat) (md : MarketData)
    (refundOf : Bid → Transfer) (s : State) (rest : List Bid) (top : Bid)
    (h : md.bids.getD [] = rest ++ [top]) :
    (addBidCore nft_contract_id token_id bidder_id amount md refundOf s).isSome ↔
      (amount ≥ top.price + top.price / 100 * 5 ∧ amount ≥ md.price) := by
  unfold addBidCore
  have hne : (rest ++ [top]).isEmpty = false := by
    cases rest <;> rfl
  simp only [h, hne, Bool.not_eq_true, Bool.false_eq_true, not_false_eq_true, if_true,
    List.getLast?_concat]
  by_cases hcond : amount ≥ top.price + top.price / 100 * 5 ∧ amount ≥ md.price
  · rw [if_pos hcond]
    exact iff_of_true (addBidFinish_isSome _ _ _ _ _ _ (by simp)) hcond
  · rw [if_neg hcond]
    exact iff_of_false (by simp) hcond

/-- C6: acceptance condition of add_bid on an English auction listing
whose other preconditions hold: with no bids the bid is accepted exactly
when the amount reaches the start price; with a top bid it is accepted
exactly when the amount reaches top.price plus five times the floor of a
hundredth of top.price and also the start price. The step bound is
inclusive, so an amount exactly at the step is accepted. -/
theorem C6_add_bid_acceptance (caller : AccountId) (deposit : Nat) (now : Nat)
    (nft_contract_id : AccountId) (token_id : TokenId) (amount : Nat) (s : State)
    (md : MarketData) (en : Nat)
    (hmd : alGet s.market (contractTokenKey nft_contract_id token_id) = some md)
    (hstart : ∀ st, md.started_at = some st → now ≥ st)
    (hend : md.ended_at = some en) (hnow : now ≤ en)
    (howner : md.owner_id ≠ caller) (hdep : deposit ≥ amount)
    (hft : md.ft_token_id = NEAR) (hep : md.end_price = none) :
    (md.bids.getD [] = [] →
      ((add_bid caller deposit now nft_contract_id NEAR token_id amount s).isSome ↔
        amount ≥ md.price)) ∧
    (∀ rest top, md.bids.getD [] = rest ++ [top] →
      ((add_bid caller deposit now nft_contract_id NEAR token_id amount s).isSome ↔
        (amount ≥ top.price + top.price / 100 * 5 ∧ amount ≥ md.price))) := by
  set md1 : MarketData :=
    (if en - now ≤ FIVE_MINUTES then { md with ended_at := some (en + FIVE_MINUTES) }
     else md) with hmd1
  have hb : md1.bids = md.bids := by
    rw [hmd1]; split <;> rfl
  have hp : md1.price = md.price := by
    rw [hmd1]; split <;> rfl
  have ho1 : md1.owner_id ≠ caller := by
    rw [hmd1]; split <;> exact howner
  have hf1 : md1.ft_token_id = NEAR := by
    rw [hmd1]; split <;> exact hft
  have he1 : md1.end_price = none := by
    rw [hmd1]; split <;> exact hep
  have hoks : (match md.started_at with
      | some st => decide (now ≥ st)
      | none => true) = true := by
    cases hst : md.started_at with
    | none => rfl
    | some st => simpa using hstart st hst
  have hred : add_bid caller deposit now nft_contract_id NEAR token_id amount s =
      addBidCore nft_contract_id token_id caller amount md1
        (fun b => Transfer.native b.bidder_id b.price) s := by
    unfold add_bid
    simp only [hmd, hend, hoks]
    rw [if_pos ⟨trivial, by simpa using hnow⟩]
    rw [if_pos ⟨ho1, hdep, trivial, hf1, he1⟩]
  constructor
  · intro hb0
    rw [hred]
    have := addBidCore_empty_isSome nft_contract_id token_id caller amount md1
      (fun b => Transfer.native b.bidder_id b.price) s (by rw [hb]; exact hb0)
    rw [hp] at this
    exact this
  · intro rest top hb0
    rw [hred]
    have := addBidCore_concat_isSome nft_contract_id token_id caller amount md1
      (fun b => Transfer.native b.bidder_id b.price) s rest top (by rw [hb]; exact hb0)
    rw [hp] at this
    exact this

/-- Witness for C6: on the fixture auction the opening bid at exactly the
start price is accepted, and a follow-up bid at exactly the five percent
step over the top bid of 100, that is 105, is accepted. -/
theorem C6_add_bid_acceptance_witness :
    (add_bid bobA 100 1000 nftA NEAR tok1 100 sEnglish).isSome ∧
    (add_bid bobA 105 1000 nftA NEAR tok1 105 sEnglishBid).isSome := by
  constructor
  · exact ((C6_add_bid_acceptance bobA 100 1000 nftA tok1 100 sEnglish mdEnglish
      (10 * FIVE_MINUTES) (by decide) (by intro st h; injection h with h2; omega)
      rfl (by decide) (by decide) (by decide) rfl rfl).1 rfl).mpr (by decide)
  · exact ((C6_add_bid_acceptance bobA 105 1000 nftA tok1 105 sEnglishBid
      mdEnglishBid (10 * FIVE_MINUTES) (by decide)
      (by intro st h; injection h with h2; omega) rfl (by decide) (by decide)
      (by decide) rfl rfl).2 [] bidCarol rfl).mpr (by decide)

/-- C2 (amended): the MAX_PRICE cap holds for stored listing prices at
creation and at update, with the exact boundary (MAX_PRICE rejected, one
below accepted), but add_bid performs no such check on bid amounts. -/
theorem C2_price_cap_amended :
    (∀ (owner_id : AccountId) (approval_id : Nat) (nft_contract_id : AccountId)
      (token_id : TokenId) (ft_token_id : AccountId) (price : Nat)
      (started_at ended_at end_price : Option Nat) (is_auction : Option Bool)
      (reserve_price : Option Nat) (now : Nat) (s s' : State),
      internal_add_market_data owner_id approval_id nft_contract_id token_id
        ft_token_id price started_at ended_at end_price is_auction reserve_price
        now s = some s' → price < MAX_PRICE) ∧
    (∀ (caller : AccountId) (deposit : Nat) (nft_contract_id : AccountId)
      (token_id : TokenId) (ft_token_id : AccountId) (price : Nat)
      (reserve_price : Option Nat) (s s' : State),
      update_market_data caller deposit nft_contract_id token_id ft_token_id price
        reserve_price s = some s' → price < MAX_PRICE) ∧
    internal_add_market_data aliceA 1 nftA tok1 NEAR MAX_PRICE none none none none
      none 0 s0 = none ∧
    (internal_add_market_data aliceA 1 nftA tok1 NEAR (MAX_PRICE - 1) none none none
      none none 0 s0).isSome ∧
    update_market_data aliceA 1 nftA tok1 NEAR MAX_PRICE none sFixed = none ∧
    (update_market_data aliceA 1 nftA tok1 NEAR (MAX_PRICE - 1) none sFixed).isSome := by
  refine ⟨?_, ?_, by decide, by decide, by decide, by decide⟩
  · intro owner_id approval_id nft_contract_id token_id ft_token_id price
      started_at ended_at end_price is_auction reserve_price now s s' h
    by_cases hp : price < MAX_PRICE
    · exact hp
    · exfalso
      unfold internal_add_market_data at h
      dsimp only at h
      rw [if_neg] at h
      · cases h
      · rintro ⟨-, -, -, -, -, hlt⟩
        exact hp hlt
  · intro caller deposit nft_contract_id token_id ft_token_id price reserve_price
      s s' h
    by_cases hp : price < MAX_PRICE
    · exact hp
    · exfalso
      unfold update_market_data at h
      split at h
      · cases hmd : alGet s.market (contractTokenKey nft_contract_id token_id) with
        | none =>
            simp only [hmd] at h
            cases h
        | some md =>
            simp only [hmd] at h
            rw [if_neg (fun hc => hp hc.2.2)] at h
            cases h
      · cases h

/-- Witness for C2 (amended), applying the creation cap to the concrete
accepted creation at one below the cap. -/
theorem C2_price_cap_amended_witness : MAX_PRICE - 1 < MAX_PRICE := by
  obtain ⟨h1, -, -, h4, -, -⟩ := C2_price_cap_amended
  obtain ⟨s', hs'⟩ := Option.isSome_iff_exists.mp h4
  exact h1 aliceA 1 nftA tok1 NEAR (MAX_PRICE - 1) none none none none none 0 s0 s' hs'

/-- Counterexample to C2 as stated: add_bid checks no price cap, so a bid
of exactly MAX_PRICE passes every check and is stored. -/
theorem C2_bid_cap_counterexample :
    ((add_bid bobA MAX_PRICE 1000 nftA NEAR tok1 MAX_PRICE sEnglish).bind
      (fun r => (alGet r.1.market (contractTokenKey nftA tok1)).bind
        (fun md => md.bids))) =
      some [{ bidder_id := bobA, price := MAX_PRICE }] ∧
    ¬ MAX_PRICE < MAX_PRICE := by
  constructor
  · rfl
  · omega

/-- C4 (amended): for a well-formed Dutch listing the price reported by
get_market_data follows the claimed three-case curve and always lies
between endPrice and startPrice; the price charged by buy agrees with it
from the start time on, but a buy strictly before the start time panics
instead of charging the start price. -/
theorem C4_dutch_price_amended (md : MarketData) (st en ep t : Nat)
    (ha : md.is_auction.isSome) (hep : md.end_price = some ep)
    (hst : md.started_at = some st) (hen : md.ended_at = some en)
    (hlt : st < en) (heple : ep ≤ md.price) :
    (t < st → get_market_data_price md t = some md.price) ∧
    (t > en → get_market_data_price md t = some ep) ∧
    (st ≤ t → t ≤ en →
      get_market_data_price md t =
        some (md.price - (md.price - ep) / (en - st) * (t - st)) ∧
      ep ≤ md.price - (md.price - ep) / (en - st) * (t - st) ∧
      md.price - (md.price - ep) / (en - st) * (t - st) ≤ md.price) ∧
    (st ≤ t → buyPriceOfMarketData md t = get_market_data_price md t) ∧
    (t < st → buyPriceOfMarketData md t = none) := by
  have hcond : md.is_auction.isSome ∧ md.end_price.isSome := ⟨ha, hep ▸ rfl⟩
  have hd0 : en - st ≠ 0 := by omega
  have hview : get_market_data_price md t =
      (if t < st then some md.price
       else if t > en then some ep
       else some (md.price - (md.price - ep) / (en - st) * (t - st))) := by
    unfold get_market_data_price
    rw [if_pos hcond]
    simp only [hep, hst, hen]
    by_cases h1 : t < st
    · rw [if_pos h1, if_pos h1]
    · rw [if_neg h1, if_neg h1]
      by_cases h2 : t > en
      · rw [if_pos h2, if_pos h2]
      · rw [if_neg h2, if_neg h2, if_neg hd0]
  have hbuy : buyPriceOfMarketData md t =
      (if t ≥ st then
        (if t > en then some ep
         else some (md.price - (md.price - ep) / (en - st) * (t - st)))
       else none) := by
    unfold buyPriceOfMarketData
    rw [if_pos hcond]
    simp only [hep, hen, hst]
    by_cases h1 : t ≥ st
    · rw [if_pos h1, if_pos h1]
      by_cases h2 : t > en
      · rw [if_pos h2, if_pos h2]
      · rw [if_neg h2, if_neg h2, if_neg hd0]
    · rw [if_neg h1, if_neg h1]
  have hrange : st ≤ t → t ≤ en →
      ep ≤ md.price - (md.price - ep) / (en - st) * (t - st) ∧
      md.price - (md.price - ep) / (en - st) * (t - st) ≤ md.price := by
    intro h1 h2
    have hq1 : (md.price - ep) / (en - st) * (t - st) ≤
        (md.price - ep) / (en - st) * (en - st) :=
      Nat.mul_le_mul_left _ (by omega)
    have hq2 : (md.price - ep) / (en - st) * (en - st) ≤ md.price - ep :=
      Nat.div_mul_le_self _ _
    omega
  refine ⟨?_, ?_, ?_, ?_, ?_⟩
  · intro h1
    rw [hview, if_pos h1]
  · intro h2
    rw [hview, if_neg (by omega), if_pos h2]
  · intro h1 h2
    refine ⟨?_, hrange h1 h2⟩
    rw [hview, if_neg (by omega), if_neg (by omega)]
  · intro h1
    rw [hbuy, hview, if_pos h1, if_neg (show ¬ t < st by omega)]
  · intro h1
    rw [hbuy, if_neg (show ¬ t ≥ st by omega)]

/-- Witness for C4 (amended) on the fixture Dutch listing two days into
its seven-day window, matching the curve of the specification. -/
theorem C4_dutch_price_amended_witness :
    get_market_data_price mdDutch (102 * dayNs) =
      some (mdDutch.price -
        (mdDutch.price - 2 * 10 ^ 24) / (107 * dayNs - 100 * dayNs) *
          (102 * dayNs - 100 * dayNs)) :=
  ((C4_dutch_price_amended mdDutch (100 * dayNs) (107 * dayNs) (2 * 10 ^ 24)
      (102 * dayNs) (by decide) rfl rfl rfl (by norm_num [dayNs])
      (by norm_num [mdDutch, mdEnglish])).2.2.1
    (by norm_num [dayNs]) (by norm_num [dayNs])).1

/-- Counterexample to C4 as stated: buying the fixture Dutch listing one
day before its start time panics (the charged price is not the start
price, there is none), while the view reports the start price. -/
theorem C4_buy_before_start_counterexample :
    99 * dayNs < 100 * dayNs ∧
    buy bobA (3 * 10 ^ 24) (99 * dayNs) nftA tok1 none none sDutch = none ∧
    get_market_data_price mdDutch (99 * dayNs) = some (3 * 10 ^ 24) := by
  refine ⟨by norm_num [dayNs], by rfl, by rfl⟩

/-- C1 (amended): resolve_purchase refunds the buyer (full price, in the
listing's payment token, no fee) exactly when the promise itself failed;
when the promise succeeded but its value is rejected as a payout, the
seller is paid the price minus the snapshot fee, the treasury receives
the fee, the snapshot is removed, and the buyer receives nothing. -/
theorem C1_resolve_purchase_amended (buyer_id : AccountId) (md : MarketData)
    (price : Nat) (now : Nat) (s : State) (v : PromiseValue) (f : Nat)
    (hpay : payoutOption price (some v) = none)
    (hsnap : alGet s.market_data_transaction_fee
      (contractTokenKey md.nft_contract_id md.token_id) = some f)
    (hfee : price * f / 10000 ≤ price) :
    resolve_purchase buyer_id md price none now s =
      some { state := s,
             transfers := [mkTransfer md.ft_token_id buyer_id price],
             treasury_fee := 0,
             ret := price } ∧
    resolve_purchase buyer_id md price (some v) now s =
      some { state := removeSnapshot s
               (contractTokenKey md.nft_contract_id md.token_id),
             transfers :=
               mkTransfer md.ft_token_id md.owner_id (price - price * f / 10000) ::
               (if price * f / 10000 > 0 then
                  [mkTransfer md.ft_token_id s.treasury_id (price * f / 10000)]
                else []),
             treasury_fee := price * f / 10000,
             ret := price } := by
  constructor
  · rfl
  · unfold resolve_purchase
    rw [hpay]
    unfold calculate_market_data_transaction_fee
    rw [hsnap]
    dsimp only
    rw [if_pos hfee]
    rfl

/-- Witness for C1 (amended) at the fixture listing with a 500
basis-point snapshot, a malformed-but-successful promise result, and a
failed promise. -/
theorem C1_resolve_purchase_amended_witness :
    resolve_purchase bobA mdFixed (10 ^ 24) none 0 sSnap =
      some { state := sSnap,
             transfers := [mkTransfer mdFixed.ft_token_id bobA (10 ^ 24)],
             treasury_fee := 0,
             ret := 10 ^ 24 } ∧
    resolve_purchase bobA mdFixed (10 ^ 24) (some PromiseValue.malformed) 0 sSnap =
      some { state := removeSnapshot sSnap
               (contractTokenKey mdFixed.nft_contract_id mdFixed.token_id),
             transfers :=
               mkTransfer mdFixed.ft_token_id mdFixed.owner_id
                 (10 ^ 24 - 10 ^ 24 * 500 / 10000) ::
               (if 10 ^ 24 * 500 / 10000 > 0 then
                  [mkTransfer mdFixed.ft_token_id sSnap.treasury_id
                    (10 ^ 24 * 500 / 10000)]
                else []),
             treasury_fee := 10 ^ 24 * 500 / 10000,
             ret := 10 ^ 24 } :=
  C1_resolve_purchase_amended bobA mdFixed (10 ^ 24) 0 sSnap
    PromiseValue.malformed 500 rfl (by decide) (by norm_num)

/-- Counterexample to C1 as stated: a settlement whose promise succeeded
with an unparseable payout pays the seller and the treasury instead of
refunding the buyer; the treasury fee is nonzero. -/
theorem C1_bad_payout_counterexample :
    (resolve_purchase bobA mdFixed (10 ^ 24) (some PromiseValue.malformed) 0
        sSnap).map (fun o => (o.transfers, o.treasury_fee)) =
      some ([Transfer.native aliceA (10 ^ 24 - 5 * 10 ^ 22),
             Transfer.native treasA (5 * 10 ^ 22)], 5 * 10 ^ 22) ∧
    (5 * 10 ^ 22 : Nat) ≠ 0 := by
  constructor
  · rfl
  · norm_num

/-! Fee-snapshot lemmas for C5. -/

theorem feeOp_preserves_snapshot (op : Op) (h : isFeeScheduleOp op) (t : State) :
    (step op t).market_data_transaction_fee = t.market_data_transaction_fee := by
  cases op with
  | setTransactionFee caller deposit now next_fee start_time =>
      simp only [step, stepResult]
      unfold set_transaction_fee
      split
      · split
        · rfl
        · split
          · rfl
          · rfl
      · rfl
  | calcCurrentFee now =>
      simp only [step, stepResult]
      cases hc : calculate_current_transaction_fee now t.transaction_fee with
      | none => simp [hc]
      | some pr =>
          obtain ⟨a, b⟩ := pr
          simp [hc]
  | _ => cases h

theorem run_feeOps_preserves_snapshot (ops : List Op)
    (h : ∀ op ∈ ops, isFeeScheduleOp op) (t : State) :
    (run ops t).market_data_transaction_fee = t.market_data_transaction_fee := by
  induction ops generalizing t with
  | nil => rfl
  | cons op rest ih =>
      have h1 := feeOp_preserves_snapshot op (h op (List.mem_cons_self op rest)) t
      have h2 := ih (fun o ho => h o (List.mem_cons_of_mem op ho)) (step op t)
      calc (run (op :: rest) t).market_data_transaction_fee
          = (run rest (step op t)).market_data_transaction_fee := rfl
        _ = (step op t).market_data_transaction_fee := h2
        _ = t.market_data_transaction_fee := h1

theorem internal_add_market_data_snapshot (owner_id : AccountId) (approval_id : Nat)
    (nft_contract_id : AccountId) (token_id : TokenId) (ft_token_id : AccountId)
    (price : Nat) (started_at ended_at end_price : Option Nat)
    (is_auction : Option Bool) (reserve_price : Option Nat) (now : Nat)
    (s s1 : State)
    (h : internal_add_market_data owner_id approval_id nft_contract_id token_id
      ft_token_id price started_at ended_at end_price is_auction reserve_price
      now s = some s1) :
    ∃ fee, s1.market_data_transaction_fee =
      alInsert s.market_data_transaction_fee
        (contractTokenKey nft_contract_id token_id) fee := by
  unfold internal_add_market_data at h
  dsimp only at h
  split at h
  · split at h
    · rename_i pr heq
      refine ⟨pr.1, ?_⟩
      have h2 := Option.some.inj h
      subst h2
      split <;> rfl
    · cases h
  · cases h

/-- C5: the treasury fee charged by resolve_purchase on a successful
promise equals price times the fee snapshot taken for the listing key at
creation divided by 10000, unaffected by any fee-schedule changes in
between, and the snapshot entry is removed at settlement. -/
theorem C5_fee_snapshot_monotone (owner_id : AccountId) (approval_id : Nat)
    (nft_contract_id : AccountId) (token_id : TokenId) (ft_token_id : AccountId)
    (price0 : Nat) (started_at ended_at end_price : Option Nat)
    (is_auction : Option Bool) (reserve_price : Option Nat) (now0 : Nat)
    (s0' s1 : State) (ops : List Op) (f : Nat)
    (hcreate : internal_add_market_data owner_id approval_id nft_contract_id
      token_id ft_token_id price0 started_at ended_at end_price is_auction
      reserve_price now0 s0' = some s1)
    (hops : ∀ op ∈ ops, isFeeScheduleOp op)
    (hsnap1 : alGet s1.market_data_transaction_fee
      (contractTokenKey nft_contract_id token_id) = some f)
    (hfresh : alGet s0'.market_data_transaction_fee
      (contractTokenKey nft_contract_id token_id) = none) :
    alGet (run ops s1).market_data_transaction_fee
      (contractTokenKey nft_contract_id token_id) = some f ∧
    (∀ (buyer_id : AccountId) (md : MarketData) (price : Nat)
      (v : PromiseValue) (now2 : Nat) (out : ResolveOutcome),
      md.nft_contract_id = nft_contract_id → md.token_id = token_id →
      resolve_purchase buyer_id md price (some v) now2 (run ops s1) = some out →
      out.treasury_fee = price * f / 10000 ∧
      alGet out.state.market_data_transaction_fee
        (contractTokenKey nft_contract_id token_id) = none) := by
  have hrun := run_feeOps_preserves_snapshot ops hops s1
  obtain ⟨fee, hsnapeq⟩ := internal_add_market_data_snapshot owner_id approval_id
    nft_contract_id token_id ft_token_id price0 started_at ended_at end_price
    is_auction reserve_price now0 s0' s1 hcreate
  have hfe : fee = f := by
    rw [hsnapeq, alGet_alInsert_self] at hsnap1
    exact Option.some.inj hsnap1
  subst hfe
  have hins : s1.market_data_transaction_fee =
      s0'.market_data_transaction_fee ++
        [(contractTokenKey nft_contract_id token_id, fee)] := by
    rw [hsnapeq, alInsert_eq_append_of_alGet_none _ _ _ hfresh]
  have hget : alGet (run ops s1).market_data_transaction_fee
      (contractTokenKey nft_contract_id token_id) = some fee := by
    rw [hrun]
    exact hsnap1
  have hrem : alRemove (run ops s1).market_data_transaction_fee
      (contractTokenKey nft_contract_id token_id) =
      s0'.market_data_transaction_fee := by
    rw [hrun, hins]
    exact alRemove_append_single _ _ _ hfresh
  refine ⟨hget, ?_⟩
  intro buyer_id md price v now2 out hnft htok hres
  unfold resolve_purchase at hres
  rw [hnft, htok] at hres
  unfold calculate_market_data_transaction_fee at hres
  rw [hget] at hres
  dsimp only at hres
  cases hpo : payoutOption price (some v) with
  | none =>
      rw [hpo] at hres
      dsimp only at hres
      split at hres
      · rename_i hle
        have h2 := Option.some.inj hres
        subst h2
        refine ⟨rfl, ?_⟩
        dsimp only
        rw [hrem]
        exact hfresh
      · cases hres
  | some payout =>
      rw [hpo] at hres
      dsimp only at hres
      split at hres
      · cases hres
      · rename_i ts hts
        have h2 := Option.some.inj hres
        subst h2
        refine ⟨rfl, ?_⟩
        dsimp only
        rw [hrem]
        exact hfresh

/-- Witness for C5: after creating the fixture listing at fee 500 and
then changing the schedule to 100 basis points, the snapshot for the
listing key still reads 500. -/
theorem C5_fee_snapshot_monotone_witness :
    alGet (run [Op.setTransactionFee carolA 1 0 100 none]
        s1Created).market_data_transaction_fee (contractTokenKey nftA tok1) =
      some 500 :=
  (C5_fee_snapshot_monotone aliceA 1 nftA tok1 NEAR 100 none none none none none 0
    s0 s1Created [Op.setTransactionFee carolA 1 0 100 none] 500 rfl
    (by
      intro op hop
      rw [List.mem_singleton] at hop
      subst hop
      trivial)
    (by decide) (by decide)).1

/-! Restoration lemmas for the offer round trip (C7). -/

theorem alGet_append_single {V : Type} (m : List (String × V)) (key : String) (v : V)
    (h : alGet m key = none) : alGet (m ++ [(key, v)]) key = some v := by
  induction m with
  | nil => simp [alGet]
  | cons p rest ih =>
      obtain ⟨k, w⟩ := p
      simp only [alGet] at h
      by_cases hk : k = key
      · simp [hk] at h
      · simp only [if_neg hk] at h
        simp [alGet, hk, ih h]

theorem usRemove_singleton (k : String) : usRemove [k] k = [] := by
  unfold usRemove
  simp

theorem byOwnerRemove_byOwnerInsert (m : List (String × List String))
    (a k : String)
    (h : ∀ set, alGet m a = some set → set ≠ [] ∧ k ∉ set) :
    byOwnerRemove (byOwnerInsert m a k) a k = m := by
  unfold byOwnerInsert byOwnerRemove
  cases hma : alGet m a with
  | none =>
      simp only [Option.getD_none]
      have hins : usInsert [] k = [k] := by simp [usInsert]
      rw [hins]
      rw [alInsert_eq_append_of_alGet_none _ _ _ hma]
      rw [alGet_append_single _ _ _ hma]
      dsimp only
      rw [usRemove_singleton]
      simp only [List.isEmpty_nil, if_true]
      exact alErase_append_single _ _ _ hma
  | some set =>
      obtain ⟨hne, hnm⟩ := h set hma
      simp only [Option.getD_some]
      rw [usInsert_append_of_not_mem _ _ hnm]
      rw [alGet_alInsert_self]
      dsimp only
      rw [usRemove_append_single _ _ hnm]
      have hf : set.isEmpty = false := by
        cases set with
        | nil => exact absurd rfl hne
        | cons x xs => rfl
      rw [hf]
      simp only [Bool.false_eq_true, if_false]
      rw [alInsert_alInsert]
      exact alInsert_self_of_alGet _ _ _ hma

/-- C7 (amended): when the buyer has no prior offer on the target, a
successful add_offer (escrowing the attached deposit, which equals the
price) followed by delete_offer refunds exactly the escrowed price and
restores the contract state, offers map and owner index included, to its
value before the pair. With a prior offer the pair additionally refunds
the prior escrow and does not restore the prior offer. -/
theorem C7_offer_roundtrip_amended (caller : AccountId)
    (nft_contract_id : AccountId) (token : TokenId) (price : Nat) (s : State)
    (hno : alGet s.offers (make_triple nft_contract_id caller token) = none)
    (howner : ∀ set, alGet s.by_owner_id caller = some set →
      set ≠ [] ∧ make_triple nft_contract_id caller token ∉ set)
    (hstorage : (alGet s.storage_deposits caller).getD 0 ≥
      (((alGet s.by_owner_id caller).getD []).length + 1) * STORAGE_ADD_MARKET_DATA) :
    ∃ sMid,
      add_offer caller price nft_contract_id (some token) none NEAR price s =
        some (sMid, []) ∧
      delete_offer caller 1 nft_contract_id (some token) none sMid =
        some (s, [Transfer.native caller price]) := by
  refine ⟨{ s with offers := alInsert s.offers (make_triple nft_contract_id caller token) { buyer_id := caller, nft_contract_id := nft_contract_id, token_id := some token, token_series_id := none, ft_token_id := NEAR, price := price }, by_owner_id := byOwnerInsert s.by_owner_id caller (make_triple nft_contract_id caller token) }, ?_, ?_⟩
  · unfold add_offer
    dsimp only
    rw [if_pos ⟨rfl, rfl⟩]
    unfold internal_delete_offer
    dsimp only
    rw [hno]
    dsimp only
    rw [if_pos hstorage]
    unfold internal_add_offer
    dsimp only
  · unfold delete_offer
    rw [if_pos rfl]
    dsimp only
    rw [alGet_alInsert_self]
    dsimp only
    rw [if_pos ⟨by simp, rfl⟩]
    unfold internal_delete_offer
    dsimp only
    rw [alGet_alInsert_self]
    dsimp only
    have h1 : alRemove (alInsert s.offers (make_triple nft_contract_id caller token) { buyer_id := caller, nft_contract_id := nft_contract_id, token_id := some token, token_series_id := none, ft_token_id := NEAR, price := price }) (make_triple nft_contract_id caller token) = s.offers := by
      rw [alInsert_eq_append_of_alGet_none _ _ _ hno]
      exact alRemove_append_single _ _ _ hno
    have h2 : byOwnerRemove (byOwnerInsert s.by_owner_id caller (make_triple nft_contract_id caller token)) caller (make_triple nft_contract_id caller token) = s.by_owner_id := byOwnerRemove_byOwnerInsert _ _ _ howner
    rw [h1, h2]

/-- Witness for C7 (amended): bob's add and delete of a 70-unit offer on
the prepaid fixture state restores it exactly and refunds 70. -/
theorem C7_offer_roundtrip_amended_witness :
    ∃ sMid,
      add_offer bobA 70 nftA (some tok1) none NEAR 70 sOffer = some (sMid, []) ∧
      delete_offer bobA 1 nftA (some tok1) none sMid =
        some (sOffer, [Transfer.native bobA 70]) :=
  C7_offer_roundtrip_amended bobA nftA tok1 70 sOffer (by decide)
    (by intro set hset; cases hset) (by decide)

/-- Counterexample to C7 as stated: with a prior 40-unit offer on the
same target the pair refunds 110, not the 70 escrowed by the add, and
the final state differs from the initial one (the prior offer is gone). -/
theorem C7_offer_roundtrip_counterexample :
    offerPairResult.map Prod.snd =
      some [Transfer.native bobA 40, Transfer.native bobA 70] ∧
    offerPairResult.map Prod.fst ≠ some sOfferPrior := by
  constructor
  · rfl
  · decide

/-! Storage-invariant development (C9): counting lemmas. -/

theorem ownedCount_congr (s1 s : State) (a : AccountId)
    (h : s1.by_owner_id = s.by_owner_id) : ownedCount s1 a = ownedCount s a := by
  unfold ownedCount
  rw [h]

theorem storageBal_congr (s1 s : State) (a : AccountId)
    (h : s1.storage_deposits = s.storage_deposits) :
    storageBal s1 a = storageBal s a := by
  unfold storageBal
  rw [h]

theorem cnt_byOwnerInsert_self_le (m : List (String × List String)) (a k : String) :
    (((alGet (byOwnerInsert m a k) a).getD []).length) ≤
      ((alGet m a).getD []).length + 1 := by
  unfold byOwnerInsert
  rw [alGet_alInsert_self]
  exact usInsert_length_le _ _

theorem cnt_byOwnerInsert_ne (m : List (String × List String)) (a k b : String)
    (h : b ≠ a) :
    (alGet (byOwnerInsert m a k) b) = alGet m b := by
  unfold byOwnerInsert
  exact alGet_alInsert_ne _ _ _ _ h

theorem cnt_byOwnerRemove_le (m : List (String × List String)) (a k b : String) :
    (((alGet (byOwnerRemove m a k) b).getD []).length) ≤
      ((alGet m b).getD []).length := by
  unfold byOwnerRemove
  cases hma : alGet m a with
  | none => exact Nat.le_refl _
  | some set =>
      dsimp only
      by_cases hab : b = a
      · subst hab
        split
        · rw [alGet_alErase_self]
          simp
        · rw [alGet_alInsert_self, hma]
          exact usRemove_length_le _ _
      · split
        · rw [alGet_alErase_ne _ _ _ hab]
        · rw [alGet_alInsert_ne _ _ _ _ hab]

theorem StorageInv_mono (s s' : State) (h : StorageInv s)
    (hb : ∀ a, storageBal s a ≤ storageBal s' a)
    (hc : ∀ a, ownedCount s' a ≤ ownedCount s a) : StorageInv s' := by
  intro a
  calc ownedCount s' a * STORAGE_ADD_MARKET_DATA
      ≤ ownedCount s a * STORAGE_ADD_MARKET_DATA :=
        Nat.mul_le_mul_right _ (hc a)
    _ ≤ storageBal s a := h a
    _ ≤ storageBal s' a := hb a

/-! Effect lemmas: what each internal operation does to the storage
ledger and the owner index. -/

theorem internal_delete_market_data_effects (s : State) (nft_contract_id : AccountId)
    (token_id : TokenId) :
    (internal_delete_market_data s nft_contract_id token_id).1.storage_deposits =
      s.storage_deposits ∧
    ∀ a, ownedCount (internal_delete_market_data s nft_contract_id token_id).1 a ≤
      ownedCount s a := by
  unfold internal_delete_market_data
  dsimp only
  split
  · exact ⟨rfl, fun a => cnt_byOwnerRemove_le _ _ _ _⟩
  · split
    · exact ⟨rfl, fun a => cnt_byOwnerRemove_le _ _ _ _⟩
    · exact ⟨rfl, fun a => Nat.le_refl _⟩

theorem internal_delete_offer_effects (nft_contract_id buyer_id : AccountId)
    (token_id : TokenId) (s : State) :
    (internal_delete_offer nft_contract_id buyer_id token_id s).1.storage_deposits =
      s.storage_deposits ∧
    ∀ a, ownedCount (internal_delete_offer nft_contract_id buyer_id token_id s).1 a ≤
      ownedCount s a := by
  unfold internal_delete_offer
  dsimp only
  split
  · exact ⟨rfl, fun a => Nat.le_refl _⟩
  · exact ⟨rfl, fun a => cnt_byOwnerRemove_le _ _ _ _⟩

theorem internal_delete_trade_effects (nft_contract_id buyer_id : AccountId)
    (token_id : TokenId) (buyer_nft_contract_id : AccountId)
    (buyer_token_id : TokenId) (s : State) (s2 : State) (r : Option TradeData)
    (h : internal_delete_trade nft_contract_id buyer_id token_id
      buyer_nft_contract_id buyer_token_id s = some (s2, r)) :
    s2.storage_deposits = s.storage_deposits ∧
    ∀ a, ownedCount s2 a ≤ ownedCount s a := by
  unfold internal_delete_trade at h
  dsimp only at h
  split at h
  · cases h
  · split at h
    · split at h
      · cases h
      · rename_i bo hbo
        split at h
        · have h2 := (Prod.mk.injEq _ _ _ _).mp (Option.some.inj h)
          rw [← h2.1]
          refine ⟨rfl, fun a => ?_⟩
          unfold ownedCount
          dsimp only
          by_cases hab : a = buyer_id
          · subst hab
            rw [alGet_alErase_self]
            simp
          · rw [alGet_alErase_ne _ _ _ hab]
        · have h2 := (Prod.mk.injEq _ _ _ _).mp (Option.some.inj h)
          rw [← h2.1]
          refine ⟨rfl, fun a => ?_⟩
          unfold ownedCount
          dsimp only
          by_cases hab : a = buyer_id
          · subst hab
            rw [alGet_alInsert_self, hbo]
            exact usRemove_length_le _ _
          · rw [alGet_alInsert_ne _ _ _ _ hab]
    · have h2 := (Prod.mk.injEq _ _ _ _).mp (Option.some.inj h)
      rw [← h2.1]
      exact ⟨rfl, fun a => Nat.le_refl _⟩

theorem internal_add_offer_effects (nft_contract_id : AccountId)
    (token_id token_series_id : Option TokenId) (ft_token_id : AccountId)
    (price : Nat) (buyer_id : AccountId) (s s2 : State)
    (h : internal_add_offer nft_contract_id token_id token_series_id ft_token_id
      price buyer_id s = some s2) :
    s2.storage_deposits = s.storage_deposits ∧
    ownedCount s2 buyer_id ≤ ownedCount s buyer_id + 1 ∧
    ∀ b, b ≠ buyer_id → ownedCount s2 b = ownedCount s b := by
  unfold internal_add_offer at h
  dsimp only at h
  split at h
  · cases h
  · have h2 := Option.some.inj h
    subst h2
    refine ⟨rfl, ?_, ?_⟩
    · exact cnt_byOwnerInsert_self_le _ _ _
    · intro b hb
      unfold ownedCount
      dsimp only
      rw [cnt_byOwnerInsert_ne _ _ _ _ hb]

theorem internal_add_trade_effects (nft_contract_id : AccountId)
    (token_id token_series_id : Option TokenId)
    (buyer_nft_contract_id : AccountId) (buyer_token_id : Option TokenId)
    (buyer_id : AccountId) (buyer_approval_id : Nat) (s s2 : State)
    (h : internal_add_trade nft_contract_id token_id token_series_id
      buyer_nft_contract_id buyer_token_id buyer_id buyer_approval_id s = some s2) :
    s2.storage_deposits = s.storage_deposits ∧
    ownedCount s2 buyer_id ≤ ownedCount s buyer_id + 1 ∧
    ∀ b, b ≠ buyer_id → ownedCount s2 b = ownedCount s b := by
  unfold internal_add_trade at h
  dsimp only at h
  split at h
  · have h2 := Option.some.inj h
    subst h2
    refine ⟨rfl, ?_, ?_⟩
    · exact cnt_byOwnerInsert_self_le _ _ _
    · intro b hb
      unfold ownedCount
      dsimp only
      rw [cnt_byOwnerInsert_ne _ _ _ _ hb]
  · cases h

theorem internal_add_market_data_effects (owner_id : AccountId) (approval_id : Nat)
    (nft_contract_id : AccountId) (token_id : TokenId) (ft_token_id : AccountId)
    (price : Nat) (started_at ended_at end_price : Option Nat)
    (is_auction : Option Bool) (reserve_price : Option Nat) (now : Nat)
    (s s2 : State)
    (h : internal_add_market_data owner_id approval_id nft_contract_id token_id
      ft_token_id price started_at ended_at end_price is_auction reserve_price
      now s = some s2) :
    s2.storage_deposits = s.storage_deposits ∧
    ownedCount s2 owner_id ≤ ownedCount s owner_id + 1 ∧
    ∀ b, b ≠ owner_id → ownedCount s2 b = ownedCount s b := by
  unfold internal_add_market_data at h
  dsimp only at h
  split at h
  · split at h
    · have h2 := Option.some.inj h
      subst h2
      constructor
      · split <;> rfl
      · constructor
        · unfold ownedCount
          split <;> exact cnt_byOwnerInsert_self_le _ _ _
        · intro b hb
          unfold ownedCount
          split <;> · dsimp only; rw [cnt_byOwnerInsert_ne _ _ _ _ hb]
    · cases h
  · cases h

theorem StorageInv_of_fields (s s1 : State) (h : StorageInv s)
    (hb : s1.storage_deposits = s.storage_deposits)
    (hc : s1.by_owner_id = s.by_owner_id) : StorageInv s1 := by
  intro a
  rw [ownedCount_congr s1 s a hc, storageBal_congr s1 s a hb]
  exact h a

theorem touchTradeApproval_fields (s : State) (k : String) (aid : Nat) :
    (touchTradeApproval s k aid).by_owner_id = s.by_owner_id ∧
    (touchTradeApproval s k aid).storage_deposits = s.storage_deposits := by
  unfold touchTradeApproval
  split <;> exact ⟨rfl, rfl⟩

theorem touchMarketApproval_fields (s : State) (k : String) (aid : Nat) :
    (touchMarketApproval s k aid).by_owner_id = s.by_owner_id ∧
    (touchMarketApproval s k aid).storage_deposits = s.storage_deposits := by
  unfold touchMarketApproval
  split <;> exact ⟨rfl, rfl⟩

theorem calc_md_fee_fields (now : Nat) (s : State) (nft_contract_id : AccountId)
    (token_id : TokenId) (fee : Nat) (s1 : State)
    (h : calculate_market_data_transaction_fee now s nft_contract_id token_id =
      some (fee, s1)) :
    s1.by_owner_id = s.by_owner_id ∧ s1.storage_deposits = s.storage_deposits := by
  unfold calculate_market_data_transaction_fee at h
  split at h
  · have h2 := (Prod.mk.injEq _ _ _ _).mp (Option.some.inj h)
    rw [← h2.2]
    exact ⟨rfl, rfl⟩
  · split at h
    · have h2 := (Prod.mk.injEq _ _ _ _).mp (Option.some.inj h)
      rw [← h2.2]
      exact ⟨rfl, rfl⟩
    · cases h

theorem internal_cancel_bid_fields (nft_contract_id : AccountId) (token_id : TokenId)
    (account_id : AccountId) (s s1 : State) (ts : List Transfer)
    (h : internal_cancel_bid nft_contract_id token_id account_id s = some (s1, ts)) :
    s1.by_owner_id = s.by_owner_id ∧ s1.storage_deposits = s.storage_deposits := by
  unfold internal_cancel_bid at h
  dsimp only at h
  split at h
  · cases h
  · split at h
    · cases h
    · split at h
      · cases h
      · have h2 := (Prod.mk.injEq _ _ _ _).mp (Option.some.inj h)
        rw [← h2.1]
        exact ⟨rfl, rfl⟩

theorem addBidFinish_fields (nft_contract_id : AccountId) (token_id : TokenId)
    (md : MarketData) (bids3 : List Bid) (refunds : List Transfer) (s s1 : State)
    (ts : List Transfer)
    (h : addBidFinish nft_contract_id token_id md bids3 refunds s = some (s1, ts)) :
    s1.by_owner_id = s.by_owner_id ∧ s1.storage_deposits = s.storage_deposits := by
  unfold addBidFinish at h
  dsimp only at h
  split at h
  · split at h
    · cases h
    · split at h
      · rename_i s2 ts2 heq
        have h2 := (Prod.mk.injEq _ _ _ _).mp (Option.some.inj h)
        rw [← h2.1]
        have hf := internal_cancel_bid_fields _ _ _ _ _ _ heq
        exact hf
      · cases h
  · have h2 := (Prod.mk.injEq _ _ _ _).mp (Option.some.inj h)
    rw [← h2.1]
    exact ⟨rfl, rfl⟩

theorem addBidCore_fields (nft_contract_id : AccountId) (token_id : TokenId)
    (bidder_id : AccountId) (amount : Nat) (md : MarketData)
    (refundOf : Bid → Transfer) (s s1 : State) (ts : List Transfer)
    (h : addBidCore nft_contract_id token_id bidder_id amount md refundOf s =
      some (s1, ts)) :
    s1.by_owner_id = s.by_owner_id ∧ s1.storage_deposits = s.storage_deposits := by
  unfold addBidCore at h
  dsimp only at h
  split at h
  · split at h
    · cases h
    · split at h
      · exact addBidFinish_fields _ _ _ _ _ _ _ _ h
      · cases h
  · split at h
    · exact addBidFinish_fields _ _ _ _ _ _ _ _ h
    · cases h

theorem add_bid_fields (caller : AccountId) (deposit : Nat) (now : Nat)
    (nft_contract_id : AccountId) (ft_token_id : AccountId) (token_id : TokenId)
    (amount : Nat) (s s1 : State) (ts : List Transfer)
    (h : add_bid caller deposit now nft_contract_id ft_token_id token_id amount s =
      some (s1, ts)) :
    s1.by_owner_id = s.by_owner_id ∧ s1.storage_deposits = s.storage_deposits := by
  unfold add_bid at h
  dsimp only at h
  repeat' split at h
  all_goals first
    | exact Option.noConfusion h
    | (have hf := addBidCore_fields _ _ _ _ _ _ _ _ _ h; exact hf)

theorem internal_ft_token_add_bid_fields (nft_contract_id ft_token_id : AccountId)
    (token_id : TokenId) (sender_id : AccountId) (amount now : Nat) (s s1 : State)
    (ts : List Transfer)
    (h : internal_ft_token_add_bid nft_contract_id ft_token_id token_id sender_id
      amount now s = some (s1, ts)) :
    s1.by_owner_id = s.by_owner_id ∧ s1.storage_deposits = s.storage_deposits := by
  unfold internal_ft_token_add_bid at h
  dsimp only at h
  repeat' split at h
  all_goals first
    | exact Option.noConfusion h
    | (have hf := addBidCore_fields _ _ _ _ _ _ _ _ _ h; exact hf)

theorem cancel_bid_fields (caller : AccountId) (deposit : Nat)
    (nft_contract_id : AccountId) (token_id : TokenId) (account_id : AccountId)
    (s s1 : State) (ts : List Transfer)
    (h : cancel_bid caller deposit nft_contract_id token_id account_id s =
      some (s1, ts)) :
    s1.by_owner_id = s.by_owner_id ∧ s1.storage_deposits = s.storage_deposits := by
  unfold cancel_bid at h
  dsimp only at h
  repeat' split at h
  all_goals first
    | exact Option.noConfusion h
    | (have hf := internal_cancel_bid_fields _ _ _ _ _ _ h; exact hf)

theorem update_market_data_fields (caller : AccountId) (deposit : Nat)
    (nft_contract_id : AccountId) (token_id : TokenId) (ft_token_id : AccountId)
    (price : Nat) (reserve_price0 : Option Nat) (s s1 : State)
    (h : update_market_data caller deposit nft_contract_id token_id ft_token_id
      price reserve_price0 s = some s1) :
    s1.by_owner_id = s.by_owner_id ∧ s1.storage_deposits = s.storage_deposits := by
  unfold update_market_data at h
  dsimp only at h
  split at h
  · split at h
    · cases h
    · split at h
      · split at h
        · have h2 := Option.some.inj h
          rw [← h2]
          exact ⟨rfl, rfl⟩
        · cases h
      · cases h
  · cases h

theorem resolve_purchase_fields (buyer_id : AccountId) (market_data : MarketData)
    (price : Nat) (promise_result : Option PromiseValue) (now : Nat) (s : State)
    (out : ResolveOutcome)
    (h : resolve_purchase buyer_id market_data price promise_result now s = some out) :
    out.state.by_owner_id = s.by_owner_id ∧
    out.state.storage_deposits = s.storage_deposits := by
  unfold resolve_purchase at h
  dsimp only at h
  split at h
  · split at h
    · have h2 := Option.some.inj h
      rw [← h2]
      exact ⟨rfl, rfl⟩
    · split at h
      · cases h
      · rename_i fee s1 heq
        have hf := calc_md_fee_fields _ _ _ _ _ _ heq
        split at h
        · have h2 := Option.some.inj h
          rw [← h2]
          exact hf
        · cases h
  · split at h
    · cases h
    · rename_i fee s1 heq
      have hf := calc_md_fee_fields _ _ _ _ _ _ heq
      split at h
      · cases h
      · have h2 := Option.some.inj h
        rw [← h2]
        exact hf

theorem resolve_offer_fields (seller_id : AccountId) (offer_data : OfferData)
    (token_id : TokenId) (promise_result : Option PromiseValue) (now : Nat)
    (s s1 : State) (ts : List Transfer)
    (h : resolve_offer seller_id offer_data token_id promise_result now s =
      some (s1, ts)) :
    s1.by_owner_id = s.by_owner_id ∧ s1.storage_deposits = s.storage_deposits := by
  unfold resolve_offer at h
  dsimp only at h
  split at h
  · split at h
    · split at h <;>
        · have h2 := (Prod.mk.injEq _ _ _ _).mp (Option.some.inj h)
          rw [← h2.1]
          exact ⟨rfl, rfl⟩
    · split at h
      · split at h
        · cases h
        · split at h
          · have h2 := (Prod.mk.injEq _ _ _ _).mp (Option.some.inj h)
            rw [← h2.1]
            exact ⟨rfl, rfl⟩
          · cases h
      · have h2 := (Prod.mk.injEq _ _ _ _).mp (Option.some.inj h)
        rw [← h2.1]
        exact ⟨rfl, rfl⟩
  · split at h
    · split at h
      · cases h
      · split at h
        · cases h
        · have h2 := (Prod.mk.injEq _ _ _ _).mp (Option.some.inj h)
          rw [← h2.1]
          exact ⟨rfl, rfl⟩
    · have h2 := (Prod.mk.injEq _ _ _ _).mp (Option.some.inj h)
      rw [← h2.1]
      exact ⟨rfl, rfl⟩

theorem internal_delete_market_data_eq_effects (s : State)
    (nft_contract_id : AccountId) (token_id : TokenId) (s2 : State)
    (ts : List Transfer) (mdo : Option MarketData)
    (h : internal_delete_market_data s nft_contract_id token_id = (s2, ts, mdo)) :
    s2.storage_deposits = s.storage_deposits ∧
    ∀ a, ownedCount s2 a ≤ ownedCount s a := by
  have he := internal_delete_market_data_effects s nft_contract_id token_id
  rw [h] at he
  exact he

theorem internal_delete_offer_eq_effects (nft_contract_id buyer_id : AccountId)
    (token_id : TokenId) (s s2 : State) (removed : Option OfferData)
    (h : internal_delete_offer nft_contract_id buyer_id token_id s = (s2, removed)) :
    s2.storage_deposits = s.storage_deposits ∧
    ∀ a, ownedCount s2 a ≤ ownedCount s a := by
  have he := internal_delete_offer_effects nft_contract_id buyer_id token_id s
  rw [h] at he
  exact he

theorem internal_process_purchase_effects (nft_contract_id : AccountId)
    (token_id : TokenId) (s s1 : State) (ts : List Transfer) (md : MarketData)
    (h : internal_process_purchase nft_contract_id token_id s = some (s1, ts, md)) :
    s1.storage_deposits = s.storage_deposits ∧
    ∀ a, ownedCount s1 a ≤ ownedCount s a := by
  unfold internal_process_purchase at h
  dsimp only at h
  split at h
  · rename_i md2 heq
    have h2 := Option.some.inj h
    have hs : (internal_delete_market_data s nft_contract_id token_id).1 = s1 :=
      congrArg Prod.fst h2
    rw [← hs]
    exact internal_delete_market_data_effects s nft_contract_id token_id
  · cases h

theorem buy_effects (caller : AccountId) (deposit now : Nat)
    (nft_contract_id : AccountId) (token_id : TokenId)
    (ft_token_id : Option AccountId) (price_arg : Option Nat) (s s1 : State)
    (ts : List Transfer) (price : Nat) (md2 : MarketData)
    (h : buy caller deposit now nft_contract_id token_id ft_token_id price_arg s =
      some (s1, ts, price, md2)) :
    s1.storage_deposits = s.storage_deposits ∧
    ∀ a, ownedCount s1 a ≤ ownedCount s a := by
  unfold buy at h
  try dsimp only at h
  repeat' split at h
  all_goals first
    | exact Option.noConfusion h
    | (rename_i s2 ts2 md3 heq
       have h2 := Option.some.inj h
       have hs : s2 = s1 := congrArg Prod.fst h2
       rw [← hs]
       have hf := internal_process_purchase_effects _ _ _ _ _ _ heq
       exact hf)

theorem internal_buy_effects (nft_contract_id : AccountId) (token_id : TokenId)
    (ft_token_id : AccountId) (sender : AccountId) (amount now : Nat) (s s1 : State)
    (ts : List Transfer) (price : Nat) (md2 : MarketData)
    (h : internal_buy nft_contract_id token_id ft_token_id sender amount now s =
      some (s1, ts, price, md2)) :
    s1.storage_deposits = s.storage_deposits ∧
    ∀ a, ownedCount s1 a ≤ ownedCount s a := by
  unfold internal_buy at h
  try dsimp only at h
  repeat' split at h
  all_goals first
    | exact Option.noConfusion h
    | (rename_i s2 ts2 md3 heq
       have h2 := Option.some.inj h
       have hs : s2 = s1 := congrArg Prod.fst h2
       rw [← hs]
       have hf := internal_process_purchase_effects _ _ _ _ _ _ heq
       exact hf)

theorem accept_bid_effects (caller : AccountId) (deposit now : Nat)
    (nft_contract_id : AccountId) (token_id : TokenId) (s s1 : State)
    (ts : List Transfer) (price : Nat) (md3 : MarketData) (bidder : AccountId)
    (h : accept_bid caller deposit now nft_contract_id token_id s =
      some (s1, ts, price, md3, bidder)) :
    s1.storage_deposits = s.storage_deposits ∧
    ∀ a, ownedCount s1 a ≤ ownedCount s a := by
  unfold accept_bid at h
  dsimp only at h
  repeat' split at h
  all_goals first
    | exact Option.noConfusion h
    | (rename_i s2 ts2 md4 heq
       have h2 := Option.some.inj h
       have hs : s2 = s1 := congrArg Prod.fst h2
       rw [← hs]
       have hf := internal_process_purchase_effects _ _ _ _ _ _ heq
       exact hf)

theorem delete_market_data_effects (caller : AccountId) (deposit : Nat)
    (nft_contract_id : AccountId) (token_id : TokenId) (s s1 : State)
    (ts : List Transfer)
    (h : delete_market_data caller deposit nft_contract_id token_id s =
      some (s1, ts)) :
    s1.storage_deposits = s.storage_deposits ∧
    ∀ a, ownedCount s1 a ≤ ownedCount s a := by
  unfold delete_market_data at h
  dsimp only at h
  repeat' split at h
  all_goals first
    | exact Option.noConfusion h
    | (have h2 := (Prod.mk.injEq _ _ _ _).mp (Option.some.inj h)
       rw [← h2.1]
       exact internal_delete_market_data_effects s nft_contract_id token_id)

theorem delete_offer_pub_effects (caller : AccountId) (deposit : Nat)
    (nft_contract_id : AccountId) (token_id token_series_id : Option TokenId)
    (s s1 : State) (ts : List Transfer)
    (h : delete_offer caller deposit nft_contract_id token_id token_series_id s =
      some (s1, ts)) :
    s1.storage_deposits = s.storage_deposits ∧
    ∀ a, ownedCount s1 a ≤ ownedCount s a := by
  unfold delete_offer at h
  try dsimp only at h
  repeat' split at h
  all_goals first
    | exact Option.noConfusion h
    | (have h2 := (Prod.mk.injEq _ _ _ _).mp (Option.some.inj h)
       rw [← h2.1]
       exact internal_delete_offer_effects nft_contract_id caller _ s)

theorem delete_trade_pub_effects (caller : AccountId) (deposit : Nat)
    (nft_contract_id : AccountId) (token_id token_series_id : Option TokenId)
    (buyer_nft_contract_id : AccountId) (buyer_token_id : TokenId) (s s1 : State)
    (h : delete_trade caller deposit nft_contract_id token_id token_series_id
      buyer_nft_contract_id buyer_token_id s = some s1) :
    s1.storage_deposits = s.storage_deposits ∧
    ∀ a, ownedCount s1 a ≤ ownedCount s a := by
  unfold delete_trade at h
  try dsimp only at h
  repeat' split at h
  all_goals first
    | exact Option.noConfusion h
    | (rename_i s2 td heq
       have h2 := Option.some.inj h
       rw [← h2]
       exact internal_delete_trade_effects _ _ _ _ _ _ _ _ heq)

theorem internal_accept_offer_effects (nft_contract_id buyer_id : AccountId)
    (token_id : TokenId) (price : Nat) (s s2 : State) (ts : List Transfer)
    (offer : OfferData)
    (h : internal_accept_offer nft_contract_id buyer_id token_id price s =
      some (s2, ts, offer)) :
    s2.storage_deposits = s.storage_deposits ∧
    ∀ a, ownedCount s2 a ≤ ownedCount s a := by
  unfold internal_accept_offer at h
  try dsimp only at h
  repeat' split at h
  all_goals first
    | exact Option.noConfusion h
    | (have h2 := Option.some.inj h
       have hs : _ = s2 := congrArg Prod.fst h2
       rw [← hs]
       refine ⟨((internal_delete_offer_effects _ _ _ _).1).trans
         (internal_delete_market_data_effects s _ _).1, fun a => ?_⟩
       exact le_trans ((internal_delete_offer_effects _ _ _ _).2 a)
         ((internal_delete_market_data_effects s _ _).2 a))

theorem internal_accept_offer_series_effects (nft_contract_id buyer_id : AccountId)
    (token_id : TokenId) (price : Nat) (s s2 : State) (ts : List Transfer)
    (offer : OfferData)
    (h : internal_accept_offer_series nft_contract_id buyer_id token_id price s =
      some (s2, ts, offer)) :
    s2.storage_deposits = s.storage_deposits ∧
    ∀ a, ownedCount s2 a ≤ ownedCount s a := by
  unfold internal_accept_offer_series at h
  try dsimp only at h
  repeat' split at h
  all_goals first
    | exact Option.noConfusion h
    | (have h2 := Option.some.inj h
       have hs : _ = s2 := congrArg Prod.fst h2
       rw [← hs]
       refine ⟨((internal_delete_offer_effects _ _ _ _).1).trans
         (internal_delete_market_data_effects s _ _).1, fun a => ?_⟩
       exact le_trans ((internal_delete_offer_effects _ _ _ _).2 a)
         ((internal_delete_market_data_effects s _ _).2 a))

theorem internal_accept_trade_effects (nft_contract_id buyer_id : AccountId)
    (token_id : TokenId) (seller_id buyer_nft_contract_id : AccountId)
    (buyer_token_id : TokenId) (s s2 : State) (ts : List Transfer)
    (h : internal_accept_trade nft_contract_id buyer_id token_id seller_id
      buyer_nft_contract_id buyer_token_id s = some (s2, ts)) :
    s2.storage_deposits = s.storage_deposits ∧
    ∀ a, ownedCount s2 a ≤ ownedCount s a := by
  unfold internal_accept_trade at h
  try dsimp only at h
  repeat' split at h
  all_goals first
    | exact Option.noConfusion h
    | (have h2 := (Prod.mk.injEq _ _ _ _).mp (Option.some.inj h)
       rw [← h2.1]
       refine ⟨((internal_delete_market_data_effects _ _ _).1).trans
         (internal_delete_market_data_effects s _ _).1, fun a => ?_⟩
       exact le_trans ((internal_delete_market_data_effects _ _ _).2 a)
         ((internal_delete_market_data_effects s _ _).2 a))

theorem internal_accept_trade_series_effects (nft_contract_id buyer_id : AccountId)
    (token_id : TokenId) (seller_id buyer_nft_contract_id : AccountId)
    (buyer_token_id : TokenId) (s s2 : State) (ts : List Transfer)
    (h : internal_accept_trade_series nft_contract_id buyer_id token_id seller_id
      buyer_nft_contract_id buyer_token_id s = some (s2, ts)) :
    s2.storage_deposits = s.storage_deposits ∧
    ∀ a, ownedCount s2 a ≤ ownedCount s a := by
  unfold internal_accept_trade_series at h
  try dsimp only at h
  repeat' split at h
  all_goals first
    | exact Option.noConfusion h
    | (have h2 := (Prod.mk.injEq _ _ _ _).mp (Option.some.inj h)
       rw [← h2.1]
       refine ⟨((internal_delete_market_data_effects _ _ _).1).trans
         (internal_delete_market_data_effects s _ _).1, fun a => ?_⟩
       exact le_trans ((internal_delete_market_data_effects _ _ _).2 a)
         ((internal_delete_market_data_effects s _ _).2 a))

theorem add_offer_inv (caller : AccountId) (deposit : Nat)
    (nft_contract_id : AccountId) (token_id token_series_id : Option TokenId)
    (ft_token_id : AccountId) (price : Nat) (s s2 : State) (ts : List Transfer)
    (hInv : StorageInv s)
    (h : add_offer caller deposit nft_contract_id token_id token_series_id
      ft_token_id price s = some (s2, ts)) : StorageInv s2 := by
  unfold add_offer at h
  dsimp only at h
  split at h
  · cases h
  · rename_i token htok
    split at h
    · split at h
      · rename_i hge
        split at h
        · rename_i s3 hao
          have h2 := (Prod.mk.injEq _ _ _ _).mp (Option.some.inj h)
          rw [← h2.1]
          have hd := internal_delete_offer_effects nft_contract_id caller token s
          have ha := internal_add_offer_effects _ _ _ _ _ _ _ _ hao
          intro a
          by_cases hca : a = caller
          · subst hca
            refine le_trans (Nat.mul_le_mul_right _ ha.2.1) ?_
            rw [storageBal_congr _ _ a ha.1]
            exact hge
          · rw [ha.2.2 a hca, storageBal_congr _ _ a ha.1,
              storageBal_congr _ _ a hd.1]
            exact le_trans (Nat.mul_le_mul_right _ (hd.2 a)) (hInv a)
        · cases h
      · cases h
    · cases h

theorem storage_deposit_inv (caller : AccountId) (account_id : Option AccountId)
    (deposit : Nat) (s s1 : State) (hInv : StorageInv s)
    (h : storage_deposit caller account_id deposit s = some s1) : StorageInv s1 := by
  unfold storage_deposit at h
  dsimp only at h
  split at h
  · have h2 := Option.some.inj h
    rw [← h2]
    refine StorageInv_mono s _ hInv ?_ ?_
    · intro a
      unfold storageBal
      dsimp only
      by_cases hsa : a = account_id.getD caller
      · subst hsa
        rw [alGet_alInsert_self]
        exact Nat.le_add_right _ _
      · rw [alGet_alInsert_ne _ _ _ _ hsa]
    · intro a
      exact Nat.le_refl _
  · cases h

theorem storage_withdraw_inv (caller : AccountId) (deposit : Nat) (s s1 : State)
    (ts : List Transfer) (hInv : StorageInv s)
    (h : storage_withdraw caller deposit s = some (s1, ts)) : StorageInv s1 := by
  unfold storage_withdraw at h
  dsimp only at h
  split at h
  · split at h
    · rename_i hle
      split at h
      · rename_i hgt
        split at h
        all_goals
          (have h2 := (Prod.mk.injEq _ _ _ _).mp (Option.some.inj h)
           rw [← h2.1]
           intro a
           by_cases hsa : a = caller
           · subst hsa
             unfold ownedCount storageBal
             dsimp only
             rw [alGet_alInsert_self]
             exact Nat.le_refl _
           · unfold ownedCount storageBal
             dsimp only
             rw [alGet_alInsert_ne _ _ _ _ hsa, alGet_alErase_ne _ _ _ hsa]
             exact hInv a)
      · rename_i hgt
        split at h
        all_goals
          (have h2 := (Prod.mk.injEq _ _ _ _).mp (Option.some.inj h)
           rw [← h2.1]
           intro a
           by_cases hsa : a = caller
           · subst hsa
             unfold ownedCount storageBal
             dsimp only
             rw [alGet_alErase_self]
             simp only [Option.getD_none]
             omega
           · unfold ownedCount storageBal
             dsimp only
             rw [alGet_alErase_ne _ _ _ hsa]
             exact hInv a)
    · cases h
  · cases h

theorem storage_withdraw_some (caller : AccountId) (s : State) (hInv : StorageInv s) :
    storage_withdraw caller 1 s ≠ none := by
  intro hb
  unfold storage_withdraw at hb
  dsimp only at hb
  split at hb
  · split at hb
    · exact Option.noConfusion hb
    · rename_i hnle
      exact hnle (hInv caller)
  · rename_i hd
    exact hd rfl

theorem nft_on_approve_inv (nft_contract_id signer_id current_account : AccountId)
    (token_id : TokenId) (owner_id : AccountId) (approval_id : Nat)
    (args : MarketArgs) (now : Nat) (s s1 : State) (ts : List Transfer)
    (hInv : StorageInv s)
    (h : nft_on_approve nft_contract_id signer_id current_account token_id owner_id
      approval_id args now s = some (s1, ts)) : StorageInv s1 := by
  unfold nft_on_approve at h
  dsimp only at h
  split at h
  · rename_i hcond
    split at h
    · -- sale
      split at h
      · cases h
      · split at h
        · -- insufficient storage: approval touch only
          have h2 := (Prod.mk.injEq _ _ _ _).mp (Option.some.inj h)
          rw [← h2.1]
          have hf := touchTradeApproval_fields s
            (make_triple nft_contract_id owner_id token_id) approval_id
          exact StorageInv_of_fields s _ hInv hf.2 hf.1
        · rename_i hge
          split at h
          · split at h
            · rename_i s3 hadd
              have h2 := (Prod.mk.injEq _ _ _ _).mp (Option.some.inj h)
              rw [← h2.1]
              have hf := touchTradeApproval_fields s
                (make_triple nft_contract_id owner_id token_id) approval_id
              have he2 := internal_delete_market_data_effects
                (touchTradeApproval s (make_triple nft_contract_id owner_id token_id)
                  approval_id) nft_contract_id token_id
              have ha := internal_add_market_data_effects
                _ _ _ _ _ _ _ _ _ _ _ _ _ _ hadd
              intro a
              by_cases hao : a = owner_id
              · subst hao
                have hnlt := Nat.not_lt.mp hge
                rw [← hcond.2.1] at hnlt
                refine le_trans (Nat.mul_le_mul_right _ ha.2.1) ?_
                rw [storageBal_congr _ _ a ha.1, storageBal_congr _ _ a he2.1]
                refine le_trans
                  (Nat.mul_le_mul_right _ (Nat.succ_le_succ (he2.2 a))) ?_
                exact hnlt
              · rw [ha.2.2 a hao, storageBal_congr _ _ a ha.1,
                  storageBal_congr _ _ a he2.1, storageBal_congr _ _ a hf.2]
                refine le_trans (Nat.mul_le_mul_right _ (le_trans (he2.2 a)
                  (Nat.le_of_eq (ownedCount_congr _ _ a hf.1)))) (hInv a)
            · cases h
          · cases h
    · split at h
      · -- accept_offer
        split at h
        · split at h
          · rename_i s2 ts2 off heq
            have h2 := (Prod.mk.injEq _ _ _ _).mp (Option.some.inj h)
            rw [← h2.1]
            have he := internal_accept_offer_effects _ _ _ _ _ _ _ _ heq
            exact StorageInv_mono s _ hInv
              (fun a => Nat.le_of_eq (storageBal_congr _ _ a he.1).symm) he.2
          · cases h
        · cases h
      · split at h
        · -- accept_offer_marble_series
          split at h
          · split at h
            · split at h
              · rename_i s2 ts2 off heq
                have h2 := (Prod.mk.injEq _ _ _ _).mp (Option.some.inj h)
                rw [← h2.1]
                have he := internal_accept_offer_series_effects _ _ _ _ _ _ _ _ heq
                exact StorageInv_mono s _ hInv
                  (fun a => Nat.le_of_eq (storageBal_congr _ _ a he.1).symm) he.2
              · cases h
            · cases h
          · cases h
        · split at h
          · -- add_trade
            split at h
            · -- insufficient storage: approval touches only
              have h2 := (Prod.mk.injEq _ _ _ _).mp (Option.some.inj h)
              rw [← h2.1]
              have hf1 := touchMarketApproval_fields s
                (contractTokenKey nft_contract_id token_id) approval_id
              have hf2 := touchTradeApproval_fields
                (touchMarketApproval s (contractTokenKey nft_contract_id token_id)
                  approval_id)
                (make_triple nft_contract_id owner_id token_id) approval_id
              exact StorageInv_of_fields s _ hInv (hf2.2.trans hf1.2)
                (hf2.1.trans hf1.1)
            · rename_i hge
              split at h
              · cases h
              · split at h
                · rename_i s3 hadd
                  have h2 := (Prod.mk.injEq _ _ _ _).mp (Option.some.inj h)
                  rw [← h2.1]
                  have hf1 := touchMarketApproval_fields s
                    (contractTokenKey nft_contract_id token_id) approval_id
                  have hf2 := touchTradeApproval_fields
                    (touchMarketApproval s
                      (contractTokenKey nft_contract_id token_id) approval_id)
                    (make_triple nft_contract_id owner_id token_id) approval_id
                  have ha := internal_add_trade_effects _ _ _ _ _ _ _ _ _ hadd
                  intro a
                  by_cases hao : a = owner_id
                  · subst hao
                    have hnlt := Nat.not_lt.mp hge
                    rw [← hcond.2.1] at hnlt
                    refine le_trans (Nat.mul_le_mul_right _ ha.2.1) ?_
                    rw [storageBal_congr _ _ a ha.1]
                    exact hnlt
                  · rw [ha.2.2 a hao, storageBal_congr _ _ a ha.1,
                      storageBal_congr _ _ a (hf2.2.trans hf1.2),
                      ownedCount_congr _ _ a (hf2.1.trans hf1.1)]
                    exact hInv a
                · cases h
          · split at h
            · -- accept_trade
              split at h
              · have he := internal_accept_trade_effects _ _ _ _ _ _ _ _ _ h
                exact StorageInv_mono s _ hInv
                  (fun a => Nat.le_of_eq (storageBal_congr _ _ a he.1).symm) he.2
              · cases h
            · split at h
              · -- accept_trade_marble_series
                split at h
                · split at h
                  · have he :=
                      internal_accept_trade_series_effects _ _ _ _ _ _ _ _ _ h
                    exact StorageInv_mono s _ hInv
                      (fun a => Nat.le_of_eq (storageBal_congr _ _ a he.1).symm)
                      he.2
                  · cases h
                · cases h
              · -- unknown market type: no-op
                have h2 := (Prod.mk.injEq _ _ _ _).mp (Option.some.inj h)
                rw [← h2.1]
                exact hInv
  · cases h

theorem stepResult_inv (op : Op) (s s1 : State) (hInv : StorageInv s)
    (h : stepResult op s = some s1) : StorageInv s1 := by
  cases op with
  | setTreasury caller deposit treasury_id =>
      simp only [stepResult] at h
      unfold set_treasury at h
      repeat' split at h
      all_goals first
        | exact Option.noConfusion h
        | (have h2 := Option.some.inj h
           rw [← h2]
           exact StorageInv_of_fields s _ hInv rfl rfl)
  | setTransactionFee caller deposit now next_fee start_time =>
      simp only [stepResult] at h
      unfold set_transaction_fee at h
      repeat' split at h
      all_goals first
        | exact Option.noConfusion h
        | (have h2 := Option.some.inj h
           rw [← h2]
           exact StorageInv_of_fields s _ hInv rfl rfl)
  | calcCurrentFee now =>
      simp only [stepResult] at h
      repeat' split at h
      all_goals first
        | exact Option.noConfusion h
        | (have h2 := Option.some.inj h
           rw [← h2]
           exact StorageInv_of_fields s _ hInv rfl rfl)
  | calcMarketDataFee now nft_contract_id token_id =>
      simp only [stepResult] at h
      split at h
      · rename_i fee s2 heq
        have h2 := Option.some.inj h
        rw [← h2]
        have hf := calc_md_fee_fields _ _ _ _ _ _ heq
        exact StorageInv_of_fields s _ hInv hf.2 hf.1
      · cases h
  | transferOwnership caller deposit owner_id =>
      simp only [stepResult] at h
      unfold transfer_ownership at h
      repeat' split at h
      all_goals first
        | exact Option.noConfusion h
        | (have h2 := Option.some.inj h
           rw [← h2]
           exact StorageInv_of_fields s _ hInv rfl rfl)
  | addApprovedNft caller deposit ids =>
      simp only [stepResult] at h
      unfold add_approved_nft_contract_ids at h
      repeat' split at h
      all_goals first
        | exact Option.noConfusion h
        | (have h2 := Option.some.inj h
           rw [← h2]
           exact StorageInv_of_fields s _ hInv rfl rfl)
  | removeApprovedNft caller deposit ids =>
      simp only [stepResult] at h
      unfold remove_approved_nft_contract_ids at h
      repeat' split at h
      all_goals first
        | exact Option.noConfusion h
        | (have h2 := Option.some.inj h
           rw [← h2]
           exact StorageInv_of_fields s _ hInv rfl rfl)
  | addApprovedMarble caller deposit ids =>
      simp only [stepResult] at h
      unfold add_approved_marble_nft_contract_ids at h
      repeat' split at h
      all_goals first
        | exact Option.noConfusion h
        | (have h2 := Option.some.inj h
           rw [← h2]
           exact StorageInv_of_fields s _ hInv rfl rfl)
  | addApprovedFt caller deposit ids =>
      simp only [stepResult] at h
      unfold add_approved_ft_token_ids at h
      repeat' split at h
      all_goals first
        | exact Option.noConfusion h
        | (have h2 := Option.some.inj h
           rw [← h2]
           exact StorageInv_of_fields s _ hInv rfl rfl)
  | buyOp caller deposit now nft_contract_id token_id ft_token_id price =>
      simp only [stepResult] at h
      split at h
      · rename_i s2 ts2 price2 md2 heq
        have h2 := Option.some.inj h
        rw [← h2]
        have he := buy_effects _ _ _ _ _ _ _ _ _ _ _ _ heq
        exact StorageInv_mono s _ hInv
          (fun a => Nat.le_of_eq (storageBal_congr _ _ a he.1).symm) he.2
      · cases h
  | resolvePurchaseOp buyer_id market_data price promise_result now =>
      simp only [stepResult] at h
      split at h
      · rename_i out heq
        have h2 := Option.some.inj h
        rw [← h2]
        have hf := resolve_purchase_fields _ _ _ _ _ _ _ heq
        exact StorageInv_of_fields s _ hInv hf.2 hf.1
      · cases h
  | resolveOfferOp seller_id offer_data token_id promise_result now =>
      simp only [stepResult] at h
      split at h
      · rename_i s2 ts2 heq
        have h2 := Option.some.inj h
        rw [← h2]
        have hf := resolve_offer_fields _ _ _ _ _ _ _ _ heq
        exact StorageInv_of_fields s _ hInv hf.2 hf.1
      · cases h
  | addOfferOp caller deposit nft_contract_id token_id token_series_id ft price =>
      simp only [stepResult] at h
      split at h
      · rename_i s2 ts2 heq
        have h2 := Option.some.inj h
        rw [← h2]
        exact add_offer_inv _ _ _ _ _ _ _ _ _ _ hInv heq
      · cases h
  | deleteOfferOp caller deposit nft_contract_id token_id token_series_id =>
      simp only [stepResult] at h
      split at h
      · rename_i s2 ts2 heq
        have h2 := Option.some.inj h
        rw [← h2]
        have he := delete_offer_pub_effects _ _ _ _ _ _ _ _ heq
        exact StorageInv_mono s _ hInv
          (fun a => Nat.le_of_eq (storageBal_congr _ _ a he.1).symm) he.2
      · cases h
  | deleteTradeOp caller deposit nft_contract_id token_id token_series_id bnc bt =>
      simp only [stepResult] at h
      have he := delete_trade_pub_effects _ _ _ _ _ _ _ _ _ h
      exact StorageInv_mono s _ hInv
        (fun a => Nat.le_of_eq (storageBal_congr _ _ a he.1).symm) he.2
  | addBidOp caller deposit now nft_contract_id ft_token_id token_id amount =>
      simp only [stepResult] at h
      split at h
      · rename_i s2 ts2 heq
        have h2 := Option.some.inj h
        rw [← h2]
        have hf := add_bid_fields _ _ _ _ _ _ _ _ _ _ heq
        exact StorageInv_of_fields s _ hInv hf.2 hf.1
      · cases h
  | cancelBidOp caller deposit nft_contract_id token_id account_id =>
      simp only [stepResult] at h
      split at h
      · rename_i s2 ts2 heq
        have h2 := Option.some.inj h
        rw [← h2]
        have hf := cancel_bid_fields _ _ _ _ _ _ _ _ heq
        exact StorageInv_of_fields s _ hInv hf.2 hf.1
      · cases h
  | acceptBidOp caller deposit now nft_contract_id token_id =>
      simp only [stepResult] at h
      split at h
      · rename_i s2 ts2 price2 md2 bidder heq
        have h2 := Option.some.inj h
        rw [← h2]
        have he := accept_bid_effects _ _ _ _ _ _ _ _ _ _ _ heq
        exact StorageInv_mono s _ hInv
          (fun a => Nat.le_of_eq (storageBal_congr _ _ a he.1).symm) he.2
      · cases h
  | updateMarketDataOp caller deposit nft_contract_id token_id ft price reserve =>
      simp only [stepResult] at h
      have hf := update_market_data_fields _ _ _ _ _ _ _ _ _ h
      exact StorageInv_of_fields s _ hInv hf.2 hf.1
  | deleteMarketDataOp caller deposit nft_contract_id token_id =>
      simp only [stepResult] at h
      split at h
      · rename_i s2 ts2 heq
        have h2 := Option.some.inj h
        rw [← h2]
        have he := delete_market_data_effects _ _ _ _ _ _ _ heq
        exact StorageInv_mono s _ hInv
          (fun a => Nat.le_of_eq (storageBal_congr _ _ a he.1).symm) he.2
      · cases h
  | storageDepositOp caller account_id deposit =>
      simp only [stepResult] at h
      exact storage_deposit_inv _ _ _ _ _ hInv h
  | storageWithdrawOp caller deposit =>
      simp only [stepResult] at h
      split at h
      · rename_i s2 ts2 heq
        have h2 := Option.some.inj h
        rw [← h2]
        exact storage_withdraw_inv _ _ _ _ _ hInv heq
      · cases h
  | nftOnApproveOp nft_contract_id signer_id current_account token_id owner_id
      approval_id args now =>
      simp only [stepResult] at h
      split at h
      · rename_i s2 ts2 heq
        have h2 := Option.some.inj h
        rw [← h2]
        exact nft_on_approve_inv _ _ _ _ _ _ _ _ _ _ _ hInv heq
      · cases h
  | ftOnTransferOp sender_id amount msg now =>
      simp only [stepResult] at h
      split at h
      · rename_i s2 ts2 ret heq
        have h2 := Option.some.inj h
        rw [← h2]
        unfold ft_on_transfer at heq
        split at heq
        · split at heq
          · rename_i s3 ts3 hbid
            have h3 := Option.some.inj heq
            have hs : s3 = s2 := congrArg Prod.fst h3
            rw [← hs]
            have hf := internal_ft_token_add_bid_fields _ _ _ _ _ _ _ _ _ hbid
            exact StorageInv_of_fields s _ hInv hf.2 hf.1
          · cases heq
        · split at heq
          · split at heq
            · rename_i s3 ts3 price2 md2 hb
              have h3 := Option.some.inj heq
              have hs : s3 = s2 := congrArg Prod.fst h3
              rw [← hs]
              have he := internal_buy_effects _ _ _ _ _ _ _ _ _ _ _ hb
              exact StorageInv_mono s _ hInv
                (fun a => Nat.le_of_eq (storageBal_congr _ _ a he.1).symm) he.2
            · cases heq
          · have h3 := Option.some.inj heq
            have hs : s = s2 := congrArg Prod.fst h3
            rw [← hs]
            exact hInv
      · cases h

theorem step_inv (op : Op) (s : State) (hInv : StorageInv s) :
    StorageInv (step op s) := by
  unfold step
  cases hs : stepResult op s with
  | none =>
      simp only [Option.getD_none]
      exact hInv
  | some s1 =>
      simp only [Option.getD_some]
      exact stepResult_inv op s s1 hInv hs

theorem run_inv (ops : List Op) (s : State) (hInv : StorageInv s) :
    StorageInv (run ops s) := by
  induction ops generalizing s with
  | nil => exact hInv
  | cons op rest ih =>
      show StorageInv (run rest (step op s))
      exact ih (step op s) (step_inv op s hInv)

theorem contract_new_StorageInv (owner_id treasury_id : AccountId)
    (approved_ft approved_nft marbles : List AccountId) (fee : Nat) :
    StorageInv (Contract.new owner_id treasury_id approved_ft approved_nft
      marbles fee) := by
  intro a
  show 0 * STORAGE_ADD_MARKET_DATA ≤ 0
  rw [Nat.zero_mul]

/-- C9: starting from any freshly deployed contract (Contract.new) and
after any sequence of public operations, every account's stored storage
balance is at least the number of entries in its owner index times
STORAGE_ADD_MARKET_DATA, because every insertion of a listing, offer, or
trade requires balance at least (count + 1) * STORAGE_ADD_MARKET_DATA
first; in particular the unchecked subtraction amount -= len *
STORAGE_ADD_MARKET_DATA in storage_withdraw (modelled as the panic case
of storage_withdraw) never underflows: storage_withdraw with 1 yocto
attached never panics. -/
theorem C9_storage_invariant (owner_id treasury_id : AccountId)
    (approved_ft approved_nft marbles : List AccountId) (fee : Nat)
    (ops : List Op) (a : AccountId) :
    ownedCount (run ops (Contract.new owner_id treasury_id approved_ft
        approved_nft marbles fee)) a * STORAGE_ADD_MARKET_DATA ≤
      storageBal (run ops (Contract.new owner_id treasury_id approved_ft
        approved_nft marbles fee)) a ∧
    storage_withdraw a 1 (run ops (Contract.new owner_id treasury_id approved_ft
        approved_nft marbles fee)) ≠ none := by
  have hInv := run_inv ops _ (contract_new_StorageInv owner_id treasury_id
    approved_ft approved_nft marbles fee)
  exact ⟨hInv a, storage_withdraw_some a _ hInv⟩

end Marble
